import Mathlib

/-!
Verification development for the brainshape sync & indexing engine.

Shallow embedding of the Python source under `src/brainshape/`:
  * `sync.py`   — semantic sync (hash gating) and structural sync,
  * `notes.py`  — path handling, trash / restore / rename lifecycle,
  * `tools.py`  — the dynamic entity/relation tool (`create_connection`),
  * `kg_pipeline.py` — the `_split_text` chunking function.

Modelling conventions:
  * Python `str` content is modelled as `List Char` where character-level
    operations (strip, slicing) matter, and as `String` for identifiers.
  * SHA-256 (`compute_file_hash`) is an abstract parameter
    `hash : List Char → String`; collision-freeness is taken as an explicit
    hypothesis where a claim needs it.
  * The graph database is modelled by an explicit state; each literal
    SurrealQL query issued by the source is translated to the corresponding
    state transformation.  Record ids are identified with the unique key the
    source uses in its `WHERE` clauses (`note.path`, `tag.name`).
  * Timestamps (`time::now()`, `created_at`, `modified_at`) are omitted:
    no claim mentions them.
-/

namespace Brainshape

/-! ## Python string primitives -/

/-- Default whitespace for Python `str.strip()` (ASCII part; the corpus
is plain text, so this is the relevant character class). -/
def pyIsSpace (c : Char) : Bool :=
  c = ' ' ∨ c = '\t' ∨ c = '\n' ∨ c = '\r' ∨ c = '\x0b' ∨ c = '\x0c'

/-- Python `str.strip()` on a character list: drop whitespace from both ends. -/
def pyStrip (s : List Char) : List Char :=
  ((s.dropWhile pyIsSpace).reverse.dropWhile pyIsSpace).reverse

/-! ## Semantic sync (`sync.py`, `sync_semantic_async`)

State visible to `sync_semantic_async`:
  * `stored : String → Option String` — the `content_hash` field of each
    `note` row, keyed by corpus-relative path (`none` = `NONE` in the db).
  * `invoked` — the paths for which `pipeline.run_async` was called,
    in call order (it records the *attempt*, successful or not).
The per-note pipeline success is an abstract parameter `ok : String → Bool`:
`ok p = true` means `pipeline.run_async` and the subsequent hash `UPDATE`
complete without raising for the file at path `p`.
-/

/-- One file of the corpus as seen by `sync_semantic_async`: its
corpus-relative path (`str(file_path.relative_to(notes_path))`) and its raw
text content. -/
structure NoteFile where
  path : String
  content : List Char
deriving Repr, DecidableEq

/-- `_get_stored_hashes`: batch-fetch `SELECT path, content_hash FROM note`,
keeping only truthy hashes (`if r.get("content_hash")`). -/
def getStoredHash (stored : String → Option String) (p : String) : Option String :=
  match stored p with
  | some h => if h = "" then none else some h
  | none => none

/-- Running state of the `for file_path in note_files` loop. -/
structure SemResult where
  stored : String → Option String
  invoked : List String
  processed : Nat
  skipped : Nat

/-- One iteration of the loop body of `sync_semantic_async`.  `snapshot` is
the hash map fetched once before the loop; updates go to the live db state
`acc.stored`. -/
def semStep (hash : List Char → String) (ok : String → Bool)
    (snapshot : String → Option String) (acc : SemResult) (f : NoteFile) : SemResult :=
  if (pyStrip f.content).isEmpty then
    { acc with skipped := acc.skipped + 1 }
  else
    if snapshot f.path = some (hash f.content) then
      { acc with skipped := acc.skipped + 1 }
    else if ok f.path then
      { acc with
          stored := fun p => if p = f.path then some (hash f.content) else acc.stored p,
          invoked := acc.invoked ++ [f.path],
          processed := acc.processed + 1 }
    else
      { acc with
          invoked := acc.invoked ++ [f.path],
          skipped := acc.skipped + 1 }

/-- `sync_semantic_async(db, pipeline, notes_path)`: iterate over the note
files, hash-gate each, and return the final db state together with the
`processed` / `skipped` stats. -/
def sync_semantic_async (hash : List Char → String) (ok : String → Bool)
    (files : List NoteFile) (stored : String → Option String) : SemResult :=
  files.foldl (semStep hash ok (getStoredHash stored))
    { stored := stored, invoked := [], processed := 0, skipped := 0 }

/-- The loop body skips a note (only incrementing `skipped`) exactly when its
content strips to empty or its current hash matches the stored one. -/
def skipsNote (hash : List Char → String) (snapshot : String → Option String)
    (f : NoteFile) : Prop :=
  (pyStrip f.content).isEmpty = true ∨ snapshot f.path = some (hash f.content)

instance (hash : List Char → String) (snapshot : String → Option String)
    (f : NoteFile) : Decidable (skipsNote hash snapshot f) := by
  unfold skipsNote; infer_instance

section SemLemmas

variable (hash : List Char → String) (ok : String → Bool)
  (snapshot : String → Option String)

theorem semStep_of_skips {f : NoteFile} (h : skipsNote hash snapshot f)
    (acc : SemResult) :
    semStep hash ok snapshot acc f = { acc with skipped := acc.skipped + 1 } := by
  unfold semStep
  rcases h with h | h <;> simp [h]

theorem sem_foldl_of_skips {files : List NoteFile}
    (h : ∀ f ∈ files, skipsNote hash snapshot f) :
    ∀ acc : SemResult,
      files.foldl (semStep hash ok snapshot) acc =
        { acc with skipped := acc.skipped + files.length } := by
  induction files with
  | nil => intro acc; simp
  | cons f fs ih =>
    intro acc
    rw [List.foldl_cons, semStep_of_skips hash ok snapshot (h f (by simp)) acc,
      ih (fun g hg => h g (by simp [hg]))]
    simp +arith

/-- The branch taken by `semStep` never depends on the accumulator, so the
`stored` component of the result depends only on the `stored` component of
the accumulator. -/
theorem semStep_stored_congr {acc acc' : SemResult}
    (h : acc.stored = acc'.stored) (f : NoteFile) :
    (semStep hash ok snapshot acc f).stored
      = (semStep hash ok snapshot acc' f).stored := by
  unfold semStep
  split
  · exact h
  · split
    · exact h
    · split
      · simp [h]
      · exact h

/-- A fixed reference accumulator, used to express that the stats and the
invocation list produced by the loop do not depend on the accumulator. -/
def semBase : SemResult := { stored := fun _ => none, invoked := [], processed := 0, skipped := 0 }

theorem semStep_invoked (acc : SemResult) (f : NoteFile) :
    (semStep hash ok snapshot acc f).invoked
      = acc.invoked ++ (semStep hash ok snapshot semBase f).invoked := by
  unfold semStep semBase
  split
  · simp
  · split
    · simp
    · split <;> simp

theorem semStep_processed (acc : SemResult) (f : NoteFile) :
    (semStep hash ok snapshot acc f).processed
      = acc.processed + (semStep hash ok snapshot semBase f).processed := by
  unfold semStep semBase
  split
  · simp
  · split
    · simp
    · split <;> simp

theorem semStep_skipped (acc : SemResult) (f : NoteFile) :
    (semStep hash ok snapshot acc f).skipped
      = acc.skipped + (semStep hash ok snapshot semBase f).skipped := by
  unfold semStep semBase
  split
  · simp
  · split
    · simp
    · split <;> simp

/-- A step only writes `stored` at the path of the file it processes. -/
theorem semStep_stored_other {q : String} {f : NoteFile} (hq : q ≠ f.path)
    (acc : SemResult) :
    (semStep hash ok snapshot acc f).stored q = acc.stored q := by
  unfold semStep
  split
  · rfl
  · split
    · rfl
    · split
      · simp [hq]
      · rfl

theorem sem_foldl_stored_congr {files : List NoteFile} :
    ∀ {acc acc' : SemResult}, acc.stored = acc'.stored →
      (files.foldl (semStep hash ok snapshot) acc).stored
        = (files.foldl (semStep hash ok snapshot) acc').stored := by
  induction files with
  | nil => intro acc acc' h; exact h
  | cons f fs ih =>
    intro acc acc' h
    rw [List.foldl_cons, List.foldl_cons]
    exact ih (funext fun q => congrFun (semStep_stored_congr hash ok snapshot h f) q)

theorem sem_foldl_stored_other {files : List NoteFile} {q : String}
    (hq : q ∉ files.map NoteFile.path) :
    ∀ acc : SemResult,
      (files.foldl (semStep hash ok snapshot) acc).stored q = acc.stored q := by
  induction files with
  | nil => intro acc; rfl
  | cons f fs ih =>
    intro acc
    rw [List.foldl_cons]
    have hqf : q ≠ f.path := by simp at hq; exact hq.1
    rw [ih (by simp at hq ⊢; exact hq.2), semStep_stored_other hash ok snapshot hqf acc]

/-- The loop run from the fixed reference accumulator: its `invoked`,
`processed` and `skipped` components are the deltas the loop adds to any
accumulator. -/
def semRun (files : List NoteFile) : SemResult :=
  files.foldl (semStep hash ok snapshot) semBase

theorem sem_foldl_invoked (files : List NoteFile) :
    ∀ acc : SemResult,
      (files.foldl (semStep hash ok snapshot) acc).invoked
        = acc.invoked ++ (semRun hash ok snapshot files).invoked := by
  induction files with
  | nil => intro acc; simp [semRun, semBase]
  | cons f fs ih =>
    intro acc
    rw [List.foldl_cons, ih (semStep hash ok snapshot acc f),
      semStep_invoked hash ok snapshot acc f]
    have : (semRun hash ok snapshot (f :: fs)).invoked
        = (semStep hash ok snapshot semBase f).invoked
            ++ (semRun hash ok snapshot fs).invoked := by
      unfold semRun
      rw [List.foldl_cons, ih (semStep hash ok snapshot semBase f)]
      rfl
    rw [this, List.append_assoc]

theorem sem_foldl_processed (files : List NoteFile) :
    ∀ acc : SemResult,
      (files.foldl (semStep hash ok snapshot) acc).processed
        = acc.processed + (semRun hash ok snapshot files).processed := by
  induction files with
  | nil => intro acc; simp [semRun, semBase]
  | cons f fs ih =>
    intro acc
    rw [List.foldl_cons, ih (semStep hash ok snapshot acc f),
      semStep_processed hash ok snapshot acc f]
    have : (semRun hash ok snapshot (f :: fs)).processed
        = (semStep hash ok snapshot semBase f).processed
            + (semRun hash ok snapshot fs).processed := by
      unfold semRun
      rw [List.foldl_cons, ih (semStep hash ok snapshot semBase f)]
      rfl
    rw [this]
    omega

theorem sem_foldl_skipped (files : List NoteFile) :
    ∀ acc : SemResult,
      (files.foldl (semStep hash ok snapshot) acc).skipped
        = acc.skipped + (semRun hash ok snapshot files).skipped := by
  induction files with
  | nil => intro acc; simp [semRun, semBase]
  | cons f fs ih =>
    intro acc
    rw [List.foldl_cons, ih (semStep hash ok snapshot acc f),
      semStep_skipped hash ok snapshot acc f]
    have : (semRun hash ok snapshot (f :: fs)).skipped
        = (semStep hash ok snapshot semBase f).skipped
            + (semRun hash ok snapshot fs).skipped := by
      unfold semRun
      rw [List.foldl_cons, ih (semStep hash ok snapshot semBase f)]
      rfl
    rw [this]
    omega

theorem semStep_success {f : NoteFile}
    (h1 : (pyStrip f.content).isEmpty = false)
    (h2 : snapshot f.path ≠ some (hash f.content))
    (h3 : ok f.path = true) (acc : SemResult) :
    semStep hash ok snapshot acc f =
      { acc with
          stored := fun q => if q = f.path then some (hash f.content) else acc.stored q,
          invoked := acc.invoked ++ [f.path],
          processed := acc.processed + 1 } := by
  unfold semStep
  simp [h1, h2, h3]

theorem semStep_failure {f : NoteFile}
    (h1 : (pyStrip f.content).isEmpty = false)
    (h2 : snapshot f.path ≠ some (hash f.content))
    (h3 : ok f.path = false) (acc : SemResult) :
    semStep hash ok snapshot acc f =
      { acc with
          invoked := acc.invoked ++ [f.path],
          skipped := acc.skipped + 1 } := by
  unfold semStep
  simp [h1, h2, h3]

theorem semStep_invoked_mem {x : String} {acc : SemResult} {f : NoteFile}
    (h : x ∈ (semStep hash ok snapshot acc f).invoked) :
    x ∈ acc.invoked ∨ x = f.path := by
  unfold semStep at h
  split at h
  · exact .inl h
  · split at h
    · exact .inl h
    · split at h <;> simpa using h

theorem sem_foldl_invoked_mem {x : String} {files : List NoteFile} :
    ∀ {acc : SemResult},
      x ∈ (files.foldl (semStep hash ok snapshot) acc).invoked →
      x ∈ acc.invoked ∨ x ∈ files.map NoteFile.path := by
  induction files with
  | nil => intro acc h; exact .inl h
  | cons f fs ih =>
    intro acc h
    rw [List.foldl_cons] at h
    rcases ih h with h' | h'
    · rcases semStep_invoked_mem hash ok snapshot h' with h'' | h''
      · exact .inl h''
      · exact .inr (by simp [h''])
    · exact .inr (by simp [h'])

/-- Inserting into the batch a note whose step only appends `d` to the
invocation list and counts one skip changes nothing else about the run. -/
theorem sem_foldl_mid_delta (pre post : List NoteFile) (mid : NoteFile)
    (d : List String)
    (hmid : ∀ acc : SemResult, semStep hash ok snapshot acc mid
        = { acc with invoked := acc.invoked ++ d, skipped := acc.skipped + 1 })
    (acc0 : SemResult) :
    (∀ q, ((pre ++ mid :: post).foldl (semStep hash ok snapshot) acc0).stored q
        = ((pre ++ post).foldl (semStep hash ok snapshot) acc0).stored q) ∧
    ((pre ++ mid :: post).foldl (semStep hash ok snapshot) acc0).invoked
      = (pre.foldl (semStep hash ok snapshot) acc0).invoked ++ d
          ++ (semRun hash ok snapshot post).invoked ∧
    ((pre ++ mid :: post).foldl (semStep hash ok snapshot) acc0).processed
      = ((pre ++ post).foldl (semStep hash ok snapshot) acc0).processed ∧
    ((pre ++ mid :: post).foldl (semStep hash ok snapshot) acc0).skipped
      = ((pre ++ post).foldl (semStep hash ok snapshot) acc0).skipped + 1 := by
  rw [List.foldl_append, List.foldl_append, List.foldl_cons, hmid]
  generalize List.foldl (semStep hash ok snapshot) acc0 pre = A
  obtain ⟨Ast, Ainv, Apr, Ask⟩ := A
  refine ⟨?_, ?_, ?_, ?_⟩
  · intro q
    refine congrFun (sem_foldl_stored_congr hash ok snapshot ?_) q
    rfl
  · rw [sem_foldl_invoked]
  · rw [sem_foldl_processed hash ok snapshot post,
      sem_foldl_processed hash ok snapshot post]
  · rw [sem_foldl_skipped hash ok snapshot post,
      sem_foldl_skipped hash ok snapshot post]
    dsimp only
    omega

end SemLemmas

/-- Two runs of the loop agree on everything except possibly the stored hash
at the distinguished path `p`. -/
def SemAgree (p : String) (a b : SemResult) : Prop :=
  a.invoked = b.invoked ∧ a.processed = b.processed ∧ a.skipped = b.skipped ∧
    ∀ q, q ≠ p → a.stored q = b.stored q

theorem semStep_agree (hash : List Char → String) (ok : String → Bool)
    (p : String) {sn1 sn2 : String → Option String} {f : NoteFile}
    (hf : sn1 f.path = sn2 f.path ∨ (pyStrip f.content).isEmpty = true)
    {a b : SemResult} (h : SemAgree p a b) :
    SemAgree p (semStep hash ok sn1 a f) (semStep hash ok sn2 b f) := by
  obtain ⟨hi, hp, hs, hst⟩ := h
  by_cases h1 : (pyStrip f.content).isEmpty
  · simpa [semStep, h1, SemAgree, hi, hp, hs] using hst
  · have hsn : sn1 f.path = sn2 f.path := by
      rcases hf with hf | hf
      · exact hf
      · exact absurd hf h1
    unfold semStep
    rw [hsn]
    by_cases h2 : sn2 f.path = some (hash f.content)
    · simpa [h1, h2, SemAgree, hi, hp, hs] using hst
    · by_cases h3 : ok f.path
      · refine ⟨by simp [h1, h2, h3, hi], by simp [h1, h2, h3, hp],
          by simp [h1, h2, h3, hs], ?_⟩
        intro q hq
        simp only [if_neg h1, if_neg h2, if_pos h3]
        by_cases h4 : q = f.path <;> simp [h4, hst q hq]
      · exact ⟨by simp [h1, h2, h3, hi], by simp [h1, h2, h3, hp],
          by simp [h1, h2, h3, hs], fun q hq => by simp [h1, h2, h3, hst q hq]⟩

theorem sem_foldl_agree (hash : List Char → String) (ok : String → Bool)
    (p : String) {sn1 sn2 : String → Option String} {files : List NoteFile}
    (hf : ∀ f ∈ files, sn1 f.path = sn2 f.path ∨ (pyStrip f.content).isEmpty = true) :
    ∀ (a b : SemResult), SemAgree p a b →
      SemAgree p (files.foldl (semStep hash ok sn1) a)
        (files.foldl (semStep hash ok sn2) b) := by
  induction files with
  | nil => intro a b h; exact h
  | cons f fs ih =>
    intro a b h
    rw [List.foldl_cons, List.foldl_cons]
    exact ih (fun g hg => hf g (by simp [hg])) _ _
      (semStep_agree hash ok p (hf f (by simp)) h)

/-! ### Claims C1, C2, C10 -/

/-- Claim C1, counterexample to the claim as stated: the corpus consists of
the single file `a.md`, whose stored hash records its previous content `"x"`;
the file has been edited (its current hash differs from the stored one) to
whitespace-only content.  The claim predicts that exactly this one file is
reprocessed, but semantic sync processes nothing and never invokes the
pipeline, because whitespace-only notes are skipped before the hash gate. -/
theorem C1_edit_to_blank_counterexample :
    getStoredHash (fun p => if p = "a.md" then some "x" else none) "a.md"
        ≠ some ((fun c : List Char => String.mk c) [' ']) ∧
    (sync_semantic_async (fun c => String.mk c) (fun _ => true)
        [⟨"a.md", [' ']⟩]
        (fun p => if p = "a.md" then some "x" else none)).processed = 0 ∧
    (sync_semantic_async (fun c => String.mk c) (fun _ => true)
        [⟨"a.md", [' ']⟩]
        (fun p => if p = "a.md" then some "x" else none)).invoked = [] := by
  decide

/-- Claim C1 (amended): hash gating of semantic sync.  (1) Every note that is
whitespace-only or whose current hash equals the stored hash is skipped: over
a corpus of such notes semantic sync processes nothing, invokes the pipeline
on nothing, and leaves every stored hash unchanged.  (2) If exactly one file
is edited so that its content is non-blank and its hash no longer matches the
stored one, and its pipeline run succeeds, then exactly that one file is
reprocessed: `processed = 1`, the pipeline is invoked exactly on it, every
other note is skipped, its stored hash advances to the new hash, and no other
stored hash changes. -/
theorem C1_hash_gating :
    (∀ (hash : List Char → String) (ok : String → Bool) (files : List NoteFile)
        (stored : String → Option String),
        (∀ f ∈ files, skipsNote hash (getStoredHash stored) f) →
        (sync_semantic_async hash ok files stored).processed = 0 ∧
        (sync_semantic_async hash ok files stored).invoked = [] ∧
        ∀ q, (sync_semantic_async hash ok files stored).stored q = stored q) ∧
    (∀ (hash : List Char → String) (ok : String → Bool)
        (pre post : List NoteFile) (p : String) (c : List Char)
        (stored : String → Option String),
        (∀ f ∈ pre ++ post, skipsNote hash (getStoredHash stored) f) →
        (pyStrip c).isEmpty = false →
        getStoredHash stored p ≠ some (hash c) →
        ok p = true →
        (sync_semantic_async hash ok (pre ++ ⟨p, c⟩ :: post) stored).processed = 1 ∧
        (sync_semantic_async hash ok (pre ++ ⟨p, c⟩ :: post) stored).invoked = [p] ∧
        (sync_semantic_async hash ok (pre ++ ⟨p, c⟩ :: post) stored).skipped
          = pre.length + post.length ∧
        (sync_semantic_async hash ok (pre ++ ⟨p, c⟩ :: post) stored).stored p
          = some (hash c) ∧
        ∀ q, q ≠ p →
          (sync_semantic_async hash ok (pre ++ ⟨p, c⟩ :: post) stored).stored q
            = stored q) := by
  constructor
  · intro hash ok files stored hskip
    unfold sync_semantic_async
    rw [sem_foldl_of_skips hash ok (getStoredHash stored) hskip]
    exact ⟨rfl, rfl, fun q => rfl⟩
  · intro hash ok pre post p c stored hskip hblank hsnap hok
    have hpre : ∀ f ∈ pre, skipsNote hash (getStoredHash stored) f :=
      fun f hf => hskip f (by simp [hf])
    have hpost : ∀ f ∈ post, skipsNote hash (getStoredHash stored) f :=
      fun f hf => hskip f (by simp [hf])
    unfold sync_semantic_async
    rw [List.foldl_append, List.foldl_cons,
      sem_foldl_of_skips hash ok (getStoredHash stored) hpre,
      semStep_success hash ok (getStoredHash stored) hblank hsnap hok,
      sem_foldl_of_skips hash ok (getStoredHash stored) hpost]
    refine ⟨rfl, rfl, by simp +arith, by simp, fun q hq => by simp [hq]⟩

/-- Witness for C1: a two-file corpus.  With both stored hashes current,
semantic sync processes nothing; after editing only `b.md` (new non-blank
content `['z']`), exactly `b.md` is reprocessed and its hash advances. -/
theorem C1_hash_gating_witness :
    (sync_semantic_async (fun c => String.mk c) (fun _ => true)
        [⟨"a.md", ['x']⟩, ⟨"b.md", ['y']⟩]
        (fun p => if p = "a.md" then some "x" else
          if p = "b.md" then some "y" else none)).processed = 0 ∧
    (sync_semantic_async (fun c => String.mk c) (fun _ => true)
        [⟨"a.md", ['x']⟩, ⟨"b.md", ['z']⟩]
        (fun p => if p = "a.md" then some "x" else
          if p = "b.md" then some "y" else none)).processed = 1 ∧
    (sync_semantic_async (fun c => String.mk c) (fun _ => true)
        [⟨"a.md", ['x']⟩, ⟨"b.md", ['z']⟩]
        (fun p => if p = "a.md" then some "x" else
          if p = "b.md" then some "y" else none)).invoked = ["b.md"] := by
  refine ⟨(C1_hash_gating.1 (fun c => String.mk c) (fun _ => true)
      [⟨"a.md", ['x']⟩, ⟨"b.md", ['y']⟩] _ (by decide)).1, ?_, ?_⟩
  · exact (C1_hash_gating.2 (fun c => String.mk c) (fun _ => true)
      [⟨"a.md", ['x']⟩] [] "b.md" ['z'] _ (by decide) (by decide) (by decide) rfl).1
  · exact (C1_hash_gating.2 (fun c => String.mk c) (fun _ => true)
      [⟨"a.md", ['x']⟩] [] "b.md" ['z'] _ (by decide) (by decide) (by decide) rfl).2.1

/-- Claim C2: dirty-bit atomicity.  If the pipeline raises for the note at
path `p` (non-blank, hash mismatch, `ok p = false`), then: the pipeline was
invoked on `p`, the stored hash at `p` is left exactly as it was, and the run
behaves on everything else exactly like the run without that note — same
final hashes everywhere, same `processed` count (the rest of the batch is
still processed), with `p` counted once as skipped. -/
theorem C2_dirty_bit_atomicity
    (hash : List Char → String) (ok : String → Bool)
    (pre post : List NoteFile) (p : String) (c : List Char)
    (stored : String → Option String)
    (hblank : (pyStrip c).isEmpty = false)
    (hsnap : getStoredHash stored p ≠ some (hash c))
    (hfail : ok p = false)
    (hfresh : p ∉ (pre ++ post).map NoteFile.path) :
    (sync_semantic_async hash ok (pre ++ ⟨p, c⟩ :: post) stored).stored p = stored p ∧
    p ∈ (sync_semantic_async hash ok (pre ++ ⟨p, c⟩ :: post) stored).invoked ∧
    (∀ q, (sync_semantic_async hash ok (pre ++ ⟨p, c⟩ :: post) stored).stored q
        = (sync_semantic_async hash ok (pre ++ post) stored).stored q) ∧
    (sync_semantic_async hash ok (pre ++ ⟨p, c⟩ :: post) stored).processed
      = (sync_semantic_async hash ok (pre ++ post) stored).processed ∧
    (sync_semantic_async hash ok (pre ++ ⟨p, c⟩ :: post) stored).skipped
      = (sync_semantic_async hash ok (pre ++ post) stored).skipped + 1 := by
  have hmid : ∀ acc : SemResult,
      semStep hash ok (getStoredHash stored) acc ⟨p, c⟩
        = { acc with invoked := acc.invoked ++ [p], skipped := acc.skipped + 1 } :=
    fun acc => semStep_failure hash ok (getStoredHash stored) hblank hsnap hfail acc
  obtain ⟨hst, hinv, hpr, hsk⟩ := sem_foldl_mid_delta hash ok (getStoredHash stored)
    pre post ⟨p, c⟩ [p] hmid
    { stored := stored, invoked := [], processed := 0, skipped := 0 }
  unfold sync_semantic_async
  refine ⟨?_, ?_, hst, hpr, hsk⟩
  · rw [hst p, sem_foldl_stored_other hash ok (getStoredHash stored) hfresh]
  · rw [hinv]
    simp

/-- Witness for C2: a failing pipeline on `a.md` leaves its stored hash
absent, the pipeline was attempted, and the companion note is unaffected. -/
theorem C2_dirty_bit_atomicity_witness :
    (sync_semantic_async (fun c => String.mk c) (fun _ => false)
        [⟨"a.md", ['x']⟩, ⟨"b.md", ['y']⟩] (fun _ => none)).stored "a.md" = none ∧
    "a.md" ∈ (sync_semantic_async (fun c => String.mk c) (fun _ => false)
        [⟨"a.md", ['x']⟩, ⟨"b.md", ['y']⟩] (fun _ => none)).invoked ∧
    (sync_semantic_async (fun c => String.mk c) (fun _ => false)
        [⟨"a.md", ['x']⟩, ⟨"b.md", ['y']⟩] (fun _ => none)).skipped
      = (sync_semantic_async (fun c => String.mk c) (fun _ => false)
          [⟨"b.md", ['y']⟩] (fun _ => none)).skipped + 1 := by
  have h := C2_dirty_bit_atomicity (fun c => String.mk c) (fun _ => false)
    [] [⟨"b.md", ['y']⟩] "a.md" ['x'] (fun _ => none)
    (by decide) (by decide) rfl (by decide)
  exact ⟨h.1, h.2.1, h.2.2.2.2⟩

/-- Claim C10: whitespace-only notes.  (1) A note whose content strips to
empty is counted as skipped and the loop moves on: the pipeline is never
invoked on it, its stored hash is untouched, and the rest of the run is
exactly the run without it (so it never receives chunks, and — since this
holds for every stored-hash state — it is re-skipped on every subsequent
pass).  (2) The run never reads the stored hash at that note's path: changing
the stored value there changes nothing observable about the run. -/
theorem C10_blank_note_skipped :
    (∀ (hash : List Char → String) (ok : String → Bool)
        (pre post : List NoteFile) (p : String) (c : List Char)
        (stored : String → Option String),
        (pyStrip c).isEmpty = true →
        p ∉ (pre ++ post).map NoteFile.path →
        p ∉ (sync_semantic_async hash ok (pre ++ ⟨p, c⟩ :: post) stored).invoked ∧
        (sync_semantic_async hash ok (pre ++ ⟨p, c⟩ :: post) stored).stored p = stored p ∧
        (∀ q, (sync_semantic_async hash ok (pre ++ ⟨p, c⟩ :: post) stored).stored q
            = (sync_semantic_async hash ok (pre ++ post) stored).stored q) ∧
        (sync_semantic_async hash ok (pre ++ ⟨p, c⟩ :: post) stored).processed
          = (sync_semantic_async hash ok (pre ++ post) stored).processed ∧
        (sync_semantic_async hash ok (pre ++ ⟨p, c⟩ :: post) stored).skipped
          = (sync_semantic_async hash ok (pre ++ post) stored).skipped + 1) ∧
    (∀ (hash : List Char → String) (ok : String → Bool) (files : List NoteFile)
        (p : String) (stored stored' : String → Option String),
        (∀ f ∈ files, f.path = p → (pyStrip f.content).isEmpty = true) →
        (∀ q, q ≠ p → stored' q = stored q) →
        (sync_semantic_async hash ok files stored').invoked
          = (sync_semantic_async hash ok files stored).invoked ∧
        (sync_semantic_async hash ok files stored').processed
          = (sync_semantic_async hash ok files stored).processed ∧
        (sync_semantic_async hash ok files stored').skipped
          = (sync_semantic_async hash ok files stored).skipped) := by
  constructor
  · intro hash ok pre post p c stored hblank hfresh
    have hpre : p ∉ pre.map NoteFile.path := fun h =>
      hfresh (by rw [List.map_append]; exact List.mem_append_left _ h)
    have hpost : p ∉ post.map NoteFile.path := fun h =>
      hfresh (by rw [List.map_append]; exact List.mem_append_right _ h)
    have hmid : ∀ acc : SemResult,
        semStep hash ok (getStoredHash stored) acc ⟨p, c⟩
          = { acc with invoked := acc.invoked ++ [], skipped := acc.skipped + 1 } := by
      intro acc
      rw [semStep_of_skips hash ok (getStoredHash stored) (Or.inl hblank)]
      simp
    obtain ⟨hst, hinv, hpr, hsk⟩ := sem_foldl_mid_delta hash ok (getStoredHash stored)
      pre post ⟨p, c⟩ [] hmid
      { stored := stored, invoked := [], processed := 0, skipped := 0 }
    unfold sync_semantic_async
    refine ⟨?_, ?_, hst, hpr, hsk⟩
    · rw [hinv]
      intro hmem
      rw [List.append_nil] at hmem
      rcases List.mem_append.mp hmem with h' | h'
      · rcases sem_foldl_invoked_mem hash ok (getStoredHash stored) h' with h'' | h''
        · simp at h''
        · exact hpre h''
      · rcases sem_foldl_invoked_mem hash ok (getStoredHash stored) h' with h'' | h''
        · simp [semBase] at h''
        · exact hpost h''
    · rw [hst p, sem_foldl_stored_other hash ok (getStoredHash stored) hfresh]
  · intro hash ok files p stored stored' hblank hagree
    have hsn : ∀ f ∈ files,
        getStoredHash stored' f.path = getStoredHash stored f.path ∨
          (pyStrip f.content).isEmpty = true := by
      intro f hf
      by_cases hfp : f.path = p
      · exact .inr (hblank f hf hfp)
      · exact .inl (by unfold getStoredHash; rw [hagree f.path hfp])
    have h := sem_foldl_agree hash ok p hsn
      { stored := stored', invoked := [], processed := 0, skipped := 0 }
      { stored := stored, invoked := [], processed := 0, skipped := 0 }
      ⟨rfl, rfl, rfl, fun q hq => hagree q hq⟩
    exact ⟨h.1, h.2.1, h.2.2.1⟩

/-- Witness for C10: a whitespace-only note next to a normal note; the blank
note is never invoked, keeps its stored hash, and erasing that stored hash
changes nothing about the run. -/
theorem C10_blank_note_skipped_witness :
    "a.md" ∉ (sync_semantic_async (fun c => String.mk c) (fun _ => true)
        [⟨"a.md", [' ']⟩, ⟨"b.md", ['y']⟩]
        (fun p => if p = "a.md" then some "h" else none)).invoked ∧
    (sync_semantic_async (fun c => String.mk c) (fun _ => true)
        [⟨"a.md", [' ']⟩, ⟨"b.md", ['y']⟩]
        (fun p => if p = "a.md" then some "h" else none)).stored "a.md" = some "h" ∧
    (sync_semantic_async (fun c => String.mk c) (fun _ => true)
        [⟨"a.md", [' ']⟩, ⟨"b.md", ['y']⟩] (fun _ => none)).processed
      = (sync_semantic_async (fun c => String.mk c) (fun _ => true)
          [⟨"a.md", [' ']⟩, ⟨"b.md", ['y']⟩]
          (fun p => if p = "a.md" then some "h" else none)).processed := by
  refine ⟨?_, ?_, ?_⟩
  · exact (C10_blank_note_skipped.1 (fun c => String.mk c) (fun _ => true)
      [] [⟨"b.md", ['y']⟩] "a.md" [' ']
      (fun p => if p = "a.md" then some "h" else none) (by decide) (by decide)).1
  · exact (C10_blank_note_skipped.1 (fun c => String.mk c) (fun _ => true)
      [] [⟨"b.md", ['y']⟩] "a.md" [' ']
      (fun p => if p = "a.md" then some "h" else none) (by decide) (by decide)).2.1
  · exact (C10_blank_note_skipped.2 (fun c => String.mk c) (fun _ => true)
      [⟨"a.md", [' ']⟩, ⟨"b.md", ['y']⟩] "a.md"
      (fun p => if p = "a.md" then some "h" else none) (fun _ => none)
      (by decide) (by intro q hq; simp [hq])).2.1

/-! ## Structural sync (`sync.py`, `sync_structural` / `_sync_structural_unlocked`)

The graph state is modelled table by table.  Record ids are identified with
the unique key the queries use (`note.path` for notes, `tag.name` for tags);
graph states whose `note`/`tag` tables contain duplicate keys are represented
up to that key identity.  Edges are `(in, out)` pairs of such keys.
-/

/-- A parsed note as produced by `read_all_notes` (`parse_note`): the fields
structural sync consumes.  `metadata` is not read by structural sync and is
omitted. -/
structure ParsedNote where
  path : String
  title : String
  content : String
  tags : List String
  links : List String
deriving Repr, DecidableEq

/-- A `note` table row as structural sync sees it.  `content_hash` is carried
so that the claims about it can be stated; the structural queries never
mention it. -/
structure GNote where
  path : String
  title : String
  content : String
  content_hash : Option String
deriving Repr, DecidableEq

/-- The graph-db state touched by structural sync.  `tagEdges` holds
`tagged_with` rows `(note path, tag name)`; `linkEdges` holds `links_to`
rows `(source note path, target note path)`; `chunks` keeps one entry per
`chunk` row, recording the note (path) its `from_document` edge points to. -/
structure Graph where
  notes : List GNote
  tags : List String
  tagEdges : List (String × String)
  linkEdges : List (String × String)
  chunks : List String
deriving Repr, DecidableEq

/-- The `stats` dict of `_sync_structural_unlocked`. -/
structure StructStats where
  notes : Nat
  tags : Nat
  links : Nat
  pruned : Nat
deriving Repr, DecidableEq

/-- Pass 0 body for one stored path `p` that is no longer on disk: the five
`DELETE` queries (tag edges from the note, link edges from and to it, its
chunks, the note row). -/
def pruneNote (g : Graph) (p : String) : Graph :=
  { g with
      tagEdges := g.tagEdges.filter (fun e => e.1 != p),
      linkEdges := ((g.linkEdges.filter (fun e => e.1 != p)).filter (fun e => e.2 != p)),
      chunks := g.chunks.filter (fun c => c != p),
      notes := g.notes.filter (fun m => m.path != p) }

/-- One iteration of the pass-0 loop: `if path and path not in disk_paths`. -/
def prune0Step (disk : List String) (acc : Graph × Nat) (p : String) : Graph × Nat :=
  if p ≠ "" ∧ ¬ disk.contains p then (pruneNote acc.1 p, acc.2 + 1) else acc

/-- Pass 0: prune stored notes whose files no longer exist on disk.  The
`SELECT path FROM note` row list is the snapshot taken before any deletion. -/
def pass0 (disk : List String) (g : Graph) : Graph × Nat :=
  (g.notes.map GNote.path).foldl (prune0Step disk) (g, 0)

/-- `DELETE tag WHERE (SELECT VALUE id FROM tagged_with WHERE out = tag.id) = []`:
keep only tags that still have an edge. -/
def cleanOrphanTags (g : Graph) : Graph :=
  { g with tags := g.tags.filter (fun t => g.tagEdges.any (fun e => e.2 == t)) }

/-- Pass 1 body: `UPSERT note SET path, title, content, modified_at WHERE
path = $path` (updates every matching row, creates one when none matches;
`content_hash` is not mentioned and therefore untouched, a fresh row has
none).  The follow-up `created_at` update only touches a timestamp and is
omitted. -/
def upsertNote (g : Graph) (n : ParsedNote) : Graph :=
  if g.notes.any (fun m => m.path == n.path) then
    { g with notes := g.notes.map (fun m =>
        if m.path == n.path then { m with title := n.title, content := n.content } else m) }
  else
    { g with notes := g.notes ++
        [{ path := n.path, title := n.title, content := n.content, content_hash := none }] }

/-- Pass 2, one tag of a note: `UPSERT tag SET name = $tag WHERE name = $tag`
then `RELATE` the note to the tag (the stats increment is accounted for in
bulk by the caller). -/
def addTagEdge (p : String) (g : Graph) (t : String) : Graph :=
  { g with
      tags := if g.tags.contains t then g.tags else g.tags ++ [t],
      tagEdges := g.tagEdges ++ [(p, t)] }

/-- Pass 2, one wikilink of a note: look up every note titled `l`; if any
exists, `RELATE` the source note to each matching target and count the link
once. -/
def addLinkEdges (n : ParsedNote) (acc : Graph × StructStats) (l : String) :
    Graph × StructStats :=
  let targets := acc.1.notes.filter (fun m => m.title == l)
  if targets.isEmpty then acc
  else
    ({ acc.1 with linkEdges := acc.1.linkEdges ++ targets.map (fun m => (n.path, m.path)) },
     { acc.2 with links := acc.2.links + 1 })

/-- Pass 2 body for one note: clear its outgoing `tagged_with` and `links_to`
edges, then recreate a tag edge per tag and a link edge per wikilink whose
target exists. -/
def syncNoteStruct (gs : Graph × StructStats) (n : ParsedNote) : Graph × StructStats :=
  let g1 := { gs.1 with
      tagEdges := gs.1.tagEdges.filter (fun e => e.1 != n.path),
      linkEdges := gs.1.linkEdges.filter (fun e => e.1 != n.path) }
  let g2 := n.tags.foldl (addTagEdge n.path) g1
  let s2 := { gs.2 with tags := gs.2.tags + n.tags.length }
  n.links.foldl (addLinkEdges n) (g2, s2)

/-- `_sync_structural_unlocked(db, notes_path)` over the parsed corpus
`notes` (the result of `read_all_notes`). -/
def _sync_structural_unlocked (notes : List ParsedNote) (g : Graph) :
    Graph × StructStats :=
  let disk := notes.map ParsedNote.path
  let pr := pass0 disk g
  let g0 := if pr.2 ≠ 0 then cleanOrphanTags pr.1 else pr.1
  let g1 := notes.foldl upsertNote g0
  notes.foldl syncNoteStruct
    (g1, { notes := notes.length, tags := 0, links := 0, pruned := pr.2 })

/-- `sync_structural`: same computation; the `_structural_lock` serialization
is a concurrency concern with no sequential content. -/
def sync_structural (notes : List ParsedNote) (g : Graph) : Graph × StructStats :=
  _sync_structural_unlocked notes g

/-- The tag edges pass 2 creates for one note. -/
def createdTagEdges (n : ParsedNote) : List (String × String) :=
  n.tags.map (fun t => (n.path, t))

/-- The link edges pass 2 creates for one note, looked up against the note
table `N`. -/
def createdLinkEdges (N : List GNote) (n : ParsedNote) : List (String × String) :=
  (n.links.map (fun l => (N.filter (fun m => m.title == l)).map
    (fun m => (n.path, m.path)))).flatten

/-- The number of wikilinks of `n` whose target exists in `N`. -/
def foundLinkCount (N : List GNote) (n : ParsedNote) : Nat :=
  n.links.countP (fun l => N.any (fun m => m.title == l))

/-- The multiset (as a list) of `content_hash` values stored for path `p`. -/
def hashesAt (g : Graph) (p : String) : List (Option String) :=
  (g.notes.filter (fun m => m.path == p)).map GNote.content_hash

example :
    (sync_structural
      [⟨"a.md", "a", "c", ["t"], ["b"]⟩, ⟨"b.md", "b", "d", [], []⟩]
      ⟨[], [], [], [], []⟩).1.linkEdges = [("a.md", "b.md")] := by
  decide

example :
    (sync_structural [⟨"a.md", "a", "c", [], ["missing"]⟩] ⟨[], [], [], [], []⟩).2.links
      = 0 := by
  decide

/-! ### Pass-2 characterization -/

theorem tagFold_fields (p : String) (ts : List String) :
    ∀ g : Graph,
      ((ts.foldl (addTagEdge p) g).notes = g.notes) ∧
      ((ts.foldl (addTagEdge p) g).linkEdges = g.linkEdges) ∧
      ((ts.foldl (addTagEdge p) g).chunks = g.chunks) ∧
      ((ts.foldl (addTagEdge p) g).tagEdges
        = g.tagEdges ++ ts.map (fun t => (p, t))) := by
  induction ts with
  | nil => intro g; simp
  | cons t ts ih =>
    intro g
    rw [List.foldl_cons]
    obtain ⟨h1, h2, h3, h4⟩ := ih (addTagEdge p g t)
    exact ⟨by rw [h1]; rfl, by rw [h2]; rfl, by rw [h3]; rfl,
      by rw [h4]; simp [addTagEdge]⟩

theorem linkFold_fields (n : ParsedNote) (ls : List String) :
    ∀ (g : Graph) (s : StructStats),
      ((ls.foldl (addLinkEdges n) (g, s)).1.notes = g.notes) ∧
      ((ls.foldl (addLinkEdges n) (g, s)).1.tagEdges = g.tagEdges) ∧
      ((ls.foldl (addLinkEdges n) (g, s)).1.chunks = g.chunks) ∧
      ((ls.foldl (addLinkEdges n) (g, s)).1.linkEdges
        = g.linkEdges ++ (ls.map (fun l =>
            (g.notes.filter (fun m => m.title == l)).map
              (fun m => (n.path, m.path)))).flatten) ∧
      ((ls.foldl (addLinkEdges n) (g, s)).2.links
        = s.links + ls.countP (fun l => g.notes.any (fun m => m.title == l))) ∧
      ((ls.foldl (addLinkEdges n) (g, s)).2.notes = s.notes) ∧
      ((ls.foldl (addLinkEdges n) (g, s)).2.tags = s.tags) ∧
      ((ls.foldl (addLinkEdges n) (g, s)).2.pruned = s.pruned) := by
  induction ls with
  | nil => intro g s; simp
  | cons l ls ih =>
    intro g s
    rw [List.foldl_cons]
    by_cases ht : (g.notes.filter (fun m => m.title == l)).isEmpty = true
    · have hnil : g.notes.filter (fun m => m.title == l) = [] :=
        List.isEmpty_iff.mp ht
      have hany : (g.notes.any (fun m => m.title == l)) = false := by
        rw [List.any_eq_false]
        intro m hm hml
        have hmem : m ∈ g.notes.filter (fun m => m.title == l) :=
          List.mem_filter.mpr ⟨hm, hml⟩
        rw [hnil] at hmem
        simp at hmem
      have hstep : addLinkEdges n (g, s) l = (g, s) := by
        simp [addLinkEdges, ht]
      rw [hstep]
      obtain ⟨h1, h2, h3, h4, h5, h6, h7, h8⟩ := ih g s
      refine ⟨h1, h2, h3, by rw [h4]; simp [hnil], ?_, h6, h7, h8⟩
      rw [h5, List.countP_cons, hany]
      simp
    · have hany : (g.notes.any (fun m => m.title == l)) = true := by
        rw [List.any_eq_true]
        rcases List.exists_mem_of_ne_nil _ (List.isEmpty_eq_false.mp
          (Bool.eq_false_iff.mpr ht)) with ⟨m, hm⟩
        exact ⟨m, (List.mem_filter.mp hm).1, (List.mem_filter.mp hm).2⟩
      have hstep : addLinkEdges n (g, s) l =
          ({ g with linkEdges := g.linkEdges ++
              ((g.notes.filter (fun m => m.title == l)).map
                (fun m => (n.path, m.path))) },
            { s with links := s.links + 1 }) := by
        simp [addLinkEdges, ht]
      rw [hstep]
      obtain ⟨h1, h2, h3, h4, h5, h6, h7, h8⟩ := ih
        { g with linkEdges := g.linkEdges ++
            ((g.notes.filter (fun m => m.title == l)).map
              (fun m => (n.path, m.path))) }
        { s with links := s.links + 1 }
      refine ⟨h1, h2, h3, ?_, ?_, h6, h7, h8⟩
      · rw [h4]
        simp [List.append_assoc]
      · rw [h5, List.countP_cons, hany]
        simp +arith

theorem syncNote_fields (gs : Graph × StructStats) (n : ParsedNote) :
    ((syncNoteStruct gs n).1.notes = gs.1.notes) ∧
    ((syncNoteStruct gs n).1.chunks = gs.1.chunks) ∧
    ((syncNoteStruct gs n).1.tagEdges
      = gs.1.tagEdges.filter (fun e => e.1 != n.path) ++ createdTagEdges n) ∧
    ((syncNoteStruct gs n).1.linkEdges
      = gs.1.linkEdges.filter (fun e => e.1 != n.path)
          ++ createdLinkEdges gs.1.notes n) ∧
    ((syncNoteStruct gs n).2.links = gs.2.links + foundLinkCount gs.1.notes n) ∧
    ((syncNoteStruct gs n).2.tags = gs.2.tags + n.tags.length) ∧
    ((syncNoteStruct gs n).2.notes = gs.2.notes) ∧
    ((syncNoteStruct gs n).2.pruned = gs.2.pruned) := by
  obtain ⟨g, s⟩ := gs
  unfold syncNoteStruct
  obtain ⟨t1, t2, t3, t4⟩ := tagFold_fields n.path n.tags
    { g with
        tagEdges := g.tagEdges.filter (fun e => e.1 != n.path),
        linkEdges := g.linkEdges.filter (fun e => e.1 != n.path) }
  obtain ⟨l1, l2, l3, l4, l5, l6, l7, l8⟩ := linkFold_fields n n.links
    (n.tags.foldl (addTagEdge n.path)
      { g with
          tagEdges := g.tagEdges.filter (fun e => e.1 != n.path),
          linkEdges := g.linkEdges.filter (fun e => e.1 != n.path) })
    { s with tags := s.tags + n.tags.length }
  refine ⟨by rw [l1, t1]; try rfl, by rw [l3, t3]; try rfl,
    by rw [l2, t4]; try rfl, ?_, ?_, l7, l6, l8⟩
  · rw [l4, t2, t1]
    rfl
  · rw [l5, t1]
    rfl

theorem createdTagEdges_fst {n : ParsedNote} {e : String × String}
    (h : e ∈ createdTagEdges n) : e.1 = n.path := by
  unfold createdTagEdges at h
  rcases List.mem_map.mp h with ⟨t, _, rfl⟩
  rfl

theorem createdLinkEdges_fst {N : List GNote} {n : ParsedNote} {e : String × String}
    (h : e ∈ createdLinkEdges N n) : e.1 = n.path := by
  unfold createdLinkEdges at h
  rcases List.mem_flatten.mp h with ⟨b, hb, he⟩
  rcases List.mem_map.mp hb with ⟨l, _, rfl⟩
  rcases List.mem_map.mp he with ⟨m, _, rfl⟩
  rfl

theorem contains_eq_false_of_not_mem {x : String} {l : List String}
    (h : x ∉ l) : l.contains x = false :=
  Bool.eq_false_iff.mpr (fun hc => h (List.elem_iff.mp hc))

/-- Pass-2 over a whole corpus with pairwise-distinct paths: the note table
and chunks are untouched; the final edge lists are the initial ones minus
every edge whose source is a corpus note, plus the per-note created edges in
corpus order; the `links` stat counts the wikilinks whose target exists. -/
theorem pass2_foldl (notes : List ParsedNote)
    (hnd : (notes.map ParsedNote.path).Nodup) :
    ∀ (g : Graph) (s : StructStats),
      ((notes.foldl syncNoteStruct (g, s)).1.notes = g.notes) ∧
      ((notes.foldl syncNoteStruct (g, s)).1.chunks = g.chunks) ∧
      ((notes.foldl syncNoteStruct (g, s)).1.tagEdges
        = g.tagEdges.filter (fun e => !((notes.map ParsedNote.path).contains e.1))
            ++ (notes.map createdTagEdges).flatten) ∧
      ((notes.foldl syncNoteStruct (g, s)).1.linkEdges
        = g.linkEdges.filter (fun e => !((notes.map ParsedNote.path).contains e.1))
            ++ (notes.map (createdLinkEdges g.notes)).flatten) ∧
      ((notes.foldl syncNoteStruct (g, s)).2.links
        = s.links + (notes.map (foundLinkCount g.notes)).sum) ∧
      ((notes.foldl syncNoteStruct (g, s)).2.tags
        = s.tags + (notes.map (fun n => n.tags.length)).sum) ∧
      ((notes.foldl syncNoteStruct (g, s)).2.notes = s.notes) ∧
      ((notes.foldl syncNoteStruct (g, s)).2.pruned = s.pruned) := by
  induction notes with
  | nil =>
    intro g s
    refine ⟨rfl, rfl, ?_, ?_, by simp, by simp, rfl, rfl⟩ <;> simp
  | cons n ns ih =>
    intro g s
    rw [List.map_cons] at hnd
    obtain ⟨hnp, hnd'⟩ := List.nodup_cons.mp hnd
    rw [List.foldl_cons]
    obtain ⟨f1, f2, f3, f4, f5, f6, f7, f8⟩ := syncNote_fields (g, s) n
    generalize hX : syncNoteStruct (g, s) n = X at f1 f2 f3 f4 f5 f6 f7 f8
    obtain ⟨G, S⟩ := X
    dsimp only at f1 f2 f3 f4 f5 f6 f7 f8
    obtain ⟨i1, i2, i3, i4, i5, i5t, i6, i7⟩ := ih hnd' G S
    have hfstTag : ∀ e ∈ createdTagEdges n,
        (fun e : String × String => !((ns.map ParsedNote.path).contains e.1)) e
          = true := by
      intro e he
      simp only [createdTagEdges_fst he]
      rw [contains_eq_false_of_not_mem hnp]
      rfl
    have hfstLink : ∀ e ∈ createdLinkEdges g.notes n,
        (fun e : String × String => !((ns.map ParsedNote.path).contains e.1)) e
          = true := by
      intro e he
      simp only [createdLinkEdges_fst he]
      rw [contains_eq_false_of_not_mem hnp]
      rfl
    have hmerge : ∀ l : List (String × String),
        (l.filter (fun e => e.1 != n.path)).filter
            (fun e => !((ns.map ParsedNote.path).contains e.1))
          = l.filter (fun e =>
              !((n.path :: ns.map ParsedNote.path).contains e.1)) := by
      intro l
      rw [List.filter_filter]
      refine List.filter_congr ?_
      intro e _
      show (!((ns.map ParsedNote.path).contains e.1) && (e.1 != n.path)) = _
      show _ = !((e.1 == n.path) || (ns.map ParsedNote.path).contains e.1)
      rw [Bool.not_or, Bool.and_comm]
      rfl
    refine ⟨by rw [i1, f1], by rw [i2, f2], ?_, ?_, ?_, ?_, by rw [i6, f7],
      by rw [i7, f8]⟩
    · simp only [List.map_cons, List.flatten_cons]
      rw [i3, f3, List.filter_append, hmerge,
        List.filter_eq_self.mpr hfstTag, List.append_assoc]
    · simp only [List.map_cons, List.flatten_cons]
      rw [i4, f4, f1, List.filter_append, hmerge,
        List.filter_eq_self.mpr hfstLink, List.append_assoc]
    · simp only [List.map_cons, List.sum_cons]
      rw [i5, f5, f1]
      omega
    · simp only [List.map_cons, List.sum_cons]
      rw [i5t, f6]
      omega

/-! ### Pass-0 characterization -/

theorem prune0_fold_skip (disk : List String) (S : List String)
    (h : ∀ p ∈ S, disk.contains p = true) :
    ∀ acc : Graph × Nat, S.foldl (prune0Step disk) acc = acc := by
  induction S with
  | nil => intro acc; rfl
  | cons p S ih =>
    intro acc
    rw [List.foldl_cons]
    have hstep : prune0Step disk acc p = acc := by
      have hnc : ¬ (p ≠ "" ∧ ¬ disk.contains p = true) :=
        fun hcon => hcon.2 (h p (by simp))
      unfold prune0Step
      rw [if_neg]
      simpa using hnc
    rw [hstep, ih (fun q hq => h q (by simp [hq]))]

/-- When every stored note is still on disk, pass 0 prunes nothing. -/
theorem pass0_noop (disk : List String) (g : Graph)
    (h : ∀ m ∈ g.notes, disk.contains m.path = true) :
    pass0 disk g = (g, 0) := by
  unfold pass0
  refine prune0_fold_skip disk _ ?_ _
  intro p hp
  rcases List.mem_map.mp hp with ⟨m, hm, rfl⟩
  exact h m hm

theorem prune0_fold_notes (disk : List String) (S : List String) :
    ∀ (g : Graph) (c : Nat),
      (∀ m ∈ g.notes, m.path ≠ "") →
      (∀ m ∈ g.notes, disk.contains m.path = true ∨ m.path ∈ S) →
      ((S.foldl (prune0Step disk) (g, c)).1).notes
        = g.notes.filter (fun m => disk.contains m.path) := by
  induction S with
  | nil =>
    intro g c hg hcov
    have hall : ∀ m ∈ g.notes, disk.contains m.path = true := by
      intro m hm
      rcases hcov m hm with h | h
      · exact h
      · simp at h
    exact (List.filter_eq_self.mpr hall).symm
  | cons p S ih =>
    intro g c hg hcov
    rw [List.foldl_cons]
    by_cases hc : p ≠ "" ∧ ¬ disk.contains p = true
    · have hstep : prune0Step disk (g, c) p = (pruneNote g p, c + 1) := by
        unfold prune0Step
        rw [if_pos]
        exact ⟨hc.1, by simpa using hc.2⟩
      rw [hstep,
        ih (pruneNote g p) (c + 1)
          (fun m hm => hg m (List.mem_of_mem_filter hm))
          ?_]
      · show (g.notes.filter (fun m => m.path != p)).filter
            (fun m => disk.contains m.path) = _
        rw [List.filter_filter]
        refine List.filter_congr ?_
        intro m _
        by_cases hmp : disk.contains m.path = true
        · have hne : m.path ≠ p := fun he => hc.2 (he ▸ hmp)
          rw [hmp, Bool.true_and]
          simpa using hne
        · rw [Bool.eq_false_iff.mpr hmp, Bool.false_and]
      · intro m hm
        have hmp : m.path ≠ p := by
          have := List.of_mem_filter hm
          simpa using this
        rcases hcov m (List.mem_of_mem_filter hm) with h | h
        · exact .inl h
        · rcases List.mem_cons.mp h with h | h
          · exact absurd h hmp
          · exact .inr h
    · have hstep : prune0Step disk (g, c) p = (g, c) := by
        unfold prune0Step
        rw [if_neg hc]
      rw [hstep]
      refine ih g c hg ?_
      intro m hm
      rcases hcov m hm with h | h
      · exact .inl h
      · rcases List.mem_cons.mp h with h | h
        · rcases not_and_or.mp hc with h' | h'
          · exact absurd (h ▸ h') (by simpa using hg m hm)
          · exact .inl (h ▸ not_not.mp h')
        · exact .inr h

/-- Pass 0 keeps exactly the stored notes whose path is still on disk
(provided no stored note has an empty path). -/
theorem pass0_notes (disk : List String) (g : Graph)
    (hg : ∀ m ∈ g.notes, m.path ≠ "") :
    (pass0 disk g).1.notes = g.notes.filter (fun m => disk.contains m.path) := by
  unfold pass0
  refine prune0_fold_notes disk _ g 0 hg ?_
  intro m hm
  exact .inr (List.mem_map.mpr ⟨m, hm, rfl⟩)

/-! ### Pass-1 characterization -/

theorem upsertNote_tagEdges (g : Graph) (n : ParsedNote) :
    (upsertNote g n).tagEdges = g.tagEdges := by
  unfold upsertNote; split <;> rfl

theorem upsertNote_linkEdges (g : Graph) (n : ParsedNote) :
    (upsertNote g n).linkEdges = g.linkEdges := by
  unfold upsertNote; split <;> rfl

theorem upsertNote_chunks (g : Graph) (n : ParsedNote) :
    (upsertNote g n).chunks = g.chunks := by
  unfold upsertNote; split <;> rfl

theorem upsertNote_tags (g : Graph) (n : ParsedNote) :
    (upsertNote g n).tags = g.tags := by
  unfold upsertNote; split <;> rfl

theorem upsert_fold_edges (ns : List ParsedNote) :
    ∀ g : Graph,
      ((ns.foldl upsertNote g).tagEdges = g.tagEdges) ∧
      ((ns.foldl upsertNote g).linkEdges = g.linkEdges) ∧
      ((ns.foldl upsertNote g).chunks = g.chunks) ∧
      ((ns.foldl upsertNote g).tags = g.tags) := by
  induction ns with
  | nil => intro g; exact ⟨rfl, rfl, rfl, rfl⟩
  | cons n ns ih =>
    intro g
    rw [List.foldl_cons]
    obtain ⟨h1, h2, h3, h4⟩ := ih (upsertNote g n)
    exact ⟨by rw [h1, upsertNote_tagEdges], by rw [h2, upsertNote_linkEdges],
      by rw [h3, upsertNote_chunks], by rw [h4, upsertNote_tags]⟩

/-- Every note row after pass 1 is either an original row whose path is not
in the parsed corpus, or carries the title and content of a parsed note with
its path. -/
theorem upsert_fold_mem (ns : List ParsedNote) :
    ∀ (g : Graph) (m : GNote), m ∈ (ns.foldl upsertNote g).notes →
      (m ∈ g.notes ∧ m.path ∉ ns.map ParsedNote.path) ∨
      (∃ n ∈ ns, n.path = m.path ∧ m.title = n.title ∧ m.content = n.content) := by
  induction ns with
  | nil => intro g m hm; exact .inl ⟨hm, by simp⟩
  | cons n ns ih =>
    intro g m hm
    rw [List.foldl_cons] at hm
    rcases ih (upsertNote g n) m hm with ⟨hmem, hnot⟩ | ⟨n', hn', hp, ht, hc⟩
    · unfold upsertNote at hmem
      split at hmem
      · rcases List.mem_map.mp hmem with ⟨m0, hm0, rfl⟩
        by_cases hb : (m0.path == n.path) = true
        · have hpe : m0.path = n.path := eq_of_beq hb
          refine .inr ⟨n, by simp, ?_, ?_, ?_⟩ <;> simp [hb, hpe]
        · simp only [hb, if_false, Bool.false_eq_true] at hnot ⊢
          refine .inl ⟨hm0, ?_⟩
          rw [List.map_cons]
          intro hmem'
          rcases List.mem_cons.mp hmem' with h | h
          · exact hb (beq_iff_eq.mpr h)
          · exact hnot h
      · next hany =>
        rcases List.mem_append.mp hmem with h | h
        · refine .inl ⟨h, ?_⟩
          rw [List.map_cons]
          intro hmem'
          rcases List.mem_cons.mp hmem' with h' | h'
          · exact hany (List.any_eq_true.mpr ⟨m, h, beq_iff_eq.mpr h'⟩)
          · exact hnot h'
        · simp only [List.mem_singleton] at h
          subst h
          exact .inr ⟨n, by simp, rfl, rfl, rfl⟩
    · exact .inr ⟨n', by simp [hn'], hp, ht, hc⟩

/-- Upserts for other paths do not remove a note with path `p`. -/
theorem upsert_fold_preserves (ns : List ParsedNote) (p : String)
    (hp : p ∉ ns.map ParsedNote.path) :
    ∀ (g : Graph) (m : GNote), m ∈ g.notes → m.path = p →
      m ∈ (ns.foldl upsertNote g).notes := by
  induction ns with
  | nil => intro g m hm _; exact hm
  | cons n ns ih =>
    intro g m hm hmp
    have hnp : n.path ≠ p := by
      intro h
      exact hp (by simp [h])
    rw [List.foldl_cons]
    refine ih (by intro h; exact hp (by simp [h])) (upsertNote g n) m ?_ hmp
    unfold upsertNote
    split
    · refine List.mem_map.mpr ⟨m, hm, ?_⟩
      have hb : ¬ ((m.path == n.path) = true) := by
        rw [hmp]
        simpa using Ne.symm hnp
      rw [if_neg hb]
    · exact List.mem_append.mpr (.inl hm)

/-- After pass 1 every parsed note has a row with its path, title, content. -/
theorem upsert_fold_covers (ns : List ParsedNote)
    (hnd : (ns.map ParsedNote.path).Nodup) :
    ∀ (g : Graph) (n : ParsedNote), n ∈ ns →
      ∃ m ∈ (ns.foldl upsertNote g).notes,
        m.path = n.path ∧ m.title = n.title ∧ m.content = n.content := by
  induction ns with
  | nil => intro g n hn; simp at hn
  | cons n0 ns ih =>
    intro g n hn
    rw [List.map_cons] at hnd
    obtain ⟨hnp, hnd'⟩ := List.nodup_cons.mp hnd
    rw [List.foldl_cons]
    rcases List.mem_cons.mp hn with rfl | hn'
    · have : ∃ m ∈ (upsertNote g n).notes,
          m.path = n.path ∧ m.title = n.title ∧ m.content = n.content := by
        unfold upsertNote
        split
        · next hany =>
          rcases List.any_eq_true.mp hany with ⟨m0, hm0, hb⟩
          refine ⟨{ m0 with title := n.title, content := n.content },
            List.mem_map.mpr ⟨m0, hm0, by simp [hb]⟩,
            eq_of_beq hb, rfl, rfl⟩
        · exact ⟨⟨n.path, n.title, n.content, none⟩,
            List.mem_append.mpr (.inr (by simp)), rfl, rfl, rfl⟩
      rcases this with ⟨m, hm, h1, h2, h3⟩
      exact ⟨m, upsert_fold_preserves ns n.path hnp (upsertNote g n) m hm h1,
        h1, h2, h3⟩
    · exact ih hnd' (upsertNote g n0) n hn'

/-- When the parsed corpus is already faithfully present in the note table,
pass 1 is the identity. -/
theorem upsert_fold_id (ns : List ParsedNote) :
    ∀ g : Graph,
      (∀ n ∈ ns, ∃ m ∈ g.notes, m.path = n.path) →
      (∀ m ∈ g.notes, ∀ n ∈ ns, n.path = m.path →
        m.title = n.title ∧ m.content = n.content) →
      ns.foldl upsertNote g = g := by
  induction ns with
  | nil => intro g _ _; rfl
  | cons n0 ns ih =>
    intro g hcov halign
    have hup : upsertNote g n0 = g := by
      unfold upsertNote
      rcases hcov n0 (by simp) with ⟨m0, hm0, hp0⟩
      have hany : (g.notes.any fun m => m.path == n0.path) = true :=
        List.any_eq_true.mpr ⟨m0, hm0, beq_iff_eq.mpr hp0⟩
      rw [if_pos hany]
      have hmap : g.notes.map (fun m =>
          if (m.path == n0.path) = true then
            { m with title := n0.title, content := n0.content } else m)
          = g.notes := by
        conv_rhs => rw [← List.map_id g.notes]
        refine List.map_congr_left ?_
        intro m hm
        by_cases hb : (m.path == n0.path) = true
        · obtain ⟨e1, e2⟩ := halign m hm n0 (by simp) (eq_of_beq hb).symm
          rw [if_pos hb, ← e1, ← e2]
          rfl
        · rw [if_neg hb]
          rfl
      rw [hmap]
    rw [List.foldl_cons, hup]
    exact ih g (fun n hn => hcov n (by simp [hn]))
      (fun m hm n hn => halign m hm n (by simp [hn]))

/-! ### Content hashes through the passes -/

theorem filter_map_hashes (f : GNote → GNote)
    (hf : ∀ m, (f m).path = m.path ∧ (f m).content_hash = m.content_hash)
    (l : List GNote) (p : String) :
    ((l.map f).filter (fun m => m.path == p)).map GNote.content_hash
      = (l.filter (fun m => m.path == p)).map GNote.content_hash := by
  induction l with
  | nil => rfl
  | cons m l ih =>
    rw [List.map_cons, List.filter_cons, List.filter_cons, (hf m).1]
    by_cases hb : (m.path == p) = true
    · rw [if_pos hb, if_pos hb, List.map_cons, List.map_cons, (hf m).2, ih]
    · rw [if_neg hb, if_neg hb, ih]

theorem upsert_hashesAt_step (g : Graph) (n : ParsedNote) (p : String) :
    hashesAt (upsertNote g n) p
      = if n.path = p then
          (if hashesAt g p = [] then [none] else hashesAt g p)
        else hashesAt g p := by
  unfold upsertNote hashesAt
  split
  · next hany =>
    rw [filter_map_hashes _ (fun m => by split <;> exact ⟨rfl, rfl⟩)]
    by_cases hnp : n.path = p
    · rcases List.any_eq_true.mp hany with ⟨m0, hm0, hb⟩
      have hmem : m0 ∈ g.notes.filter (fun m => m.path == p) :=
        List.mem_filter.mpr ⟨hm0, by rw [eq_of_beq hb, hnp]; exact beq_self_eq_true p⟩
      have hne : (g.notes.filter (fun m => m.path == p)).map GNote.content_hash
          ≠ [] := by
        intro hEq
        rw [List.map_eq_nil_iff] at hEq
        rw [hEq] at hmem
        simp at hmem
      rw [if_pos hnp, if_neg hne]
    · rw [if_neg hnp]
  · next hany =>
    rw [List.filter_append, List.map_append]
    by_cases hnp : n.path = p
    · have hnil : g.notes.filter (fun m => m.path == p) = [] := by
        rw [List.filter_eq_nil_iff]
        intro m hm hb
        exact hany (List.any_eq_true.mpr ⟨m, hm, by rw [← hnp] at hb; exact hb⟩)
      rw [hnil, if_pos hnp, if_pos (by rfl)]
      simp [hnp]
    · rw [if_neg hnp]
      have : List.filter (fun m => m.path == p)
          [({ path := n.path, title := n.title, content := n.content,
              content_hash := none } : GNote)] = [] := by
        rw [List.filter_eq_nil_iff]
        intro m hm hb
        simp at hm
        rw [hm] at hb
        exact hnp (eq_of_beq hb)
      rw [this]
      simp

theorem upsert_fold_hashesAt_notin (ns : List ParsedNote) (p : String)
    (hp : p ∉ ns.map ParsedNote.path) :
    ∀ g : Graph, hashesAt (ns.foldl upsertNote g) p = hashesAt g p := by
  induction ns with
  | nil => intro g; rfl
  | cons n ns ih =>
    intro g
    have hnp : n.path ≠ p := fun h => hp (by simp [h])
    rw [List.foldl_cons, ih (fun h => hp (by simp [h])) (upsertNote g n),
      upsert_hashesAt_step, if_neg hnp]

theorem upsert_fold_hashesAt_in (ns : List ParsedNote)
    (hnd : (ns.map ParsedNote.path).Nodup) (p : String)
    (hp : p ∈ ns.map ParsedNote.path) :
    ∀ g : Graph,
      hashesAt (ns.foldl upsertNote g) p
        = if hashesAt g p = [] then [none] else hashesAt g p := by
  induction ns with
  | nil => simp at hp
  | cons n ns ih =>
    intro g
    rw [List.map_cons] at hnd hp
    obtain ⟨hnp, hnd'⟩ := List.nodup_cons.mp hnd
    rw [List.foldl_cons]
    rcases List.mem_cons.mp hp with hp0 | hp0
    · have hpn : p ∉ ns.map ParsedNote.path := hp0 ▸ hnp
      rw [upsert_fold_hashesAt_notin ns p hpn, upsert_hashesAt_step,
        if_pos hp0.symm]
    · have hpne : n.path ≠ p := fun h => hnp (h ▸ hp0)
      rw [ih hnd' hp0 (upsertNote g n), upsert_hashesAt_step, if_neg hpne]

theorem pass0_hashesAt (disk : List String) (g : Graph) (p : String)
    (hg : ∀ m ∈ g.notes, m.path ≠ "")
    (hp : disk.contains p = true) :
    hashesAt (pass0 disk g).1 p = hashesAt g p := by
  unfold hashesAt
  rw [pass0_notes disk g hg, List.filter_filter]
  congr 1
  refine List.filter_congr ?_
  intro m _
  by_cases hb : (m.path == p) = true
  · rw [hb, eq_of_beq hb, hp, Bool.and_self]
  · rw [Bool.eq_false_iff.mpr hb, Bool.false_and]

/-! ### Structural sync never reads `content_hash`: it commutes with erasing
every stored hash. -/

/-- Forget one row's stored hash. -/
def ehNote (m : GNote) : GNote := { m with content_hash := none }

/-- Forget every stored content hash in the graph. -/
def eraseHashes (g : Graph) : Graph := { g with notes := g.notes.map ehNote }

theorem eraseHashes_paths (l : List GNote) :
    (l.map ehNote).map GNote.path = l.map GNote.path := by
  rw [List.map_map]
  rfl

theorem pruneNote_erase (g : Graph) (p : String) :
    pruneNote (eraseHashes g) p = eraseHashes (pruneNote g p) := by
  unfold pruneNote eraseHashes
  congr 1
  rw [List.filter_map]
  rfl

theorem prune0_fold_erase (disk : List String) (S : List String) :
    ∀ (g : Graph) (c : Nat),
      S.foldl (prune0Step disk) (eraseHashes g, c)
        = (eraseHashes (S.foldl (prune0Step disk) (g, c)).1,
           (S.foldl (prune0Step disk) (g, c)).2) := by
  induction S with
  | nil => intro g c; rfl
  | cons p S ih =>
    intro g c
    rw [List.foldl_cons, List.foldl_cons]
    by_cases hc : p ≠ "" ∧ ¬ disk.contains p = true
    · have h1 : prune0Step disk (eraseHashes g, c) p
          = (eraseHashes (pruneNote g p), c + 1) := by
        unfold prune0Step
        rw [if_pos (by simpa using hc), pruneNote_erase]
      have h2 : prune0Step disk (g, c) p = (pruneNote g p, c + 1) := by
        unfold prune0Step
        rw [if_pos (by simpa using hc)]
      rw [h1, h2, ih]
    · have h1 : prune0Step disk (eraseHashes g, c) p = (eraseHashes g, c) := by
        unfold prune0Step
        rw [if_neg (by simpa using hc)]
      have h2 : prune0Step disk (g, c) p = (g, c) := by
        unfold prune0Step
        rw [if_neg (by simpa using hc)]
      rw [h1, h2, ih]

theorem pass0_erase (disk : List String) (g : Graph) :
    pass0 disk (eraseHashes g)
      = (eraseHashes (pass0 disk g).1, (pass0 disk g).2) := by
  unfold pass0
  show ((g.notes.map ehNote).map GNote.path).foldl (prune0Step disk)
      (eraseHashes g, 0) = _
  rw [eraseHashes_paths, prune0_fold_erase]

theorem cleanOrphanTags_erase (g : Graph) :
    cleanOrphanTags (eraseHashes g) = eraseHashes (cleanOrphanTags g) := rfl

theorem upsertNote_erase (g : Graph) (n : ParsedNote) :
    upsertNote (eraseHashes g) n = eraseHashes (upsertNote g n) := by
  unfold upsertNote eraseHashes
  have hany : ((g.notes.map ehNote).any fun m => m.path == n.path)
      = (g.notes.any fun m => m.path == n.path) := by
    rw [List.any_map]
    rfl
  rw [hany]
  split
  · congr 1
    rw [List.map_map, List.map_map]
    refine List.map_congr_left ?_
    intro m _
    by_cases hb : (m.path == n.path) = true
    · simp [Function.comp, ehNote, hb]
    · simp [Function.comp, ehNote, hb]
  · congr 1
    rw [List.map_append]
    rfl

theorem upsert_fold_erase (ns : List ParsedNote) :
    ∀ g : Graph,
      ns.foldl upsertNote (eraseHashes g) = eraseHashes (ns.foldl upsertNote g) := by
  induction ns with
  | nil => intro g; rfl
  | cons n ns ih =>
    intro g
    rw [List.foldl_cons, List.foldl_cons, upsertNote_erase, ih]

theorem createdLinkEdges_erase (N : List GNote) (n : ParsedNote) :
    createdLinkEdges (N.map ehNote) n = createdLinkEdges N n := by
  unfold createdLinkEdges
  congr 1
  refine List.map_congr_left ?_
  intro l _
  rw [List.filter_map, List.map_map]
  rfl

theorem foundLinkCount_erase (N : List GNote) (n : ParsedNote) :
    foundLinkCount (N.map ehNote) n = foundLinkCount N n := by
  unfold foundLinkCount
  refine List.countP_congr ?_
  intro l _
  rw [List.any_map]
  rfl

/-! ### The state after pass 0 and pass 1 -/

/-- The graph state after pass 0 (pruning plus orphan-tag cleanup) and
pass 1 (note upserts). -/
def pass1State (notes : List ParsedNote) (g : Graph) : Graph :=
  let disk := notes.map ParsedNote.path
  let pr := pass0 disk g
  let g0 := if pr.2 ≠ 0 then cleanOrphanTags pr.1 else pr.1
  notes.foldl upsertNote g0

theorem sync_structural_decomp (notes : List ParsedNote) (g : Graph) :
    sync_structural notes g
      = notes.foldl syncNoteStruct (pass1State notes g,
          { notes := notes.length, tags := 0, links := 0,
            pruned := (pass0 (notes.map ParsedNote.path) g).2 }) := rfl

theorem pass1State_notes_pass0 (notes : List ParsedNote) (g : Graph) :
    pass1State notes g
      = notes.foldl upsertNote
          (if (pass0 (notes.map ParsedNote.path) g).2 ≠ 0
            then cleanOrphanTags (pass0 (notes.map ParsedNote.path) g).1
            else (pass0 (notes.map ParsedNote.path) g).1) := rfl

theorem cleanOrphanTags_notes (g : Graph) : (cleanOrphanTags g).notes = g.notes := rfl

/-- Every note row after pass 1 matches a parsed note in path, title and
content (no placeholder rows survive pass 0). -/
theorem pass1State_mem (notes : List ParsedNote) (g : Graph)
    (hg : ∀ m ∈ g.notes, m.path ≠ "") :
    ∀ m ∈ (pass1State notes g).notes,
      ∃ n ∈ notes, n.path = m.path ∧ m.title = n.title ∧ m.content = n.content := by
  intro m hm
  rw [pass1State_notes_pass0] at hm
  rcases upsert_fold_mem notes _ m hm with ⟨hmem, hnot⟩ | h
  · exfalso
    have hmem0 : m ∈ (pass0 (notes.map ParsedNote.path) g).1.notes := by
      rcases em ((pass0 (notes.map ParsedNote.path) g).2 ≠ 0) with h | h
      · rw [if_pos h, cleanOrphanTags_notes] at hmem
        exact hmem
      · rw [if_neg h] at hmem
        exact hmem
    rw [pass0_notes _ g hg] at hmem0
    have := List.of_mem_filter hmem0
    exact hnot (List.elem_iff.mp this)
  · exact h

theorem pass1State_covers (notes : List ParsedNote) (g : Graph)
    (hnd : (notes.map ParsedNote.path).Nodup) :
    ∀ n ∈ notes, ∃ m ∈ (pass1State notes g).notes,
      m.path = n.path ∧ m.title = n.title ∧ m.content = n.content := by
  intro n hn
  rw [pass1State_notes_pass0]
  exact upsert_fold_covers notes hnd _ n hn

theorem pass1State_disk (notes : List ParsedNote) (g : Graph)
    (hg : ∀ m ∈ g.notes, m.path ≠ "") :
    ∀ m ∈ (pass1State notes g).notes,
      (notes.map ParsedNote.path).contains m.path = true := by
  intro m hm
  rcases pass1State_mem notes g hg m hm with ⟨n, hn, hp, _, _⟩
  exact List.elem_iff.mpr (List.mem_map.mpr ⟨n, hn, hp⟩)

theorem pass1State_any_title (notes : List ParsedNote) (g : Graph)
    (hnd : (notes.map ParsedNote.path).Nodup)
    (hg : ∀ m ∈ g.notes, m.path ≠ "") (l : String) :
    ((pass1State notes g).notes.any (fun m => m.title == l))
      = (notes.any (fun m => m.title == l)) := by
  rw [Bool.eq_iff_iff, List.any_eq_true, List.any_eq_true]
  constructor
  · rintro ⟨m, hm, hb⟩
    rcases pass1State_mem notes g hg m hm with ⟨n, hn, _, ht, _⟩
    exact ⟨n, hn, by rw [← ht]; exact hb⟩
  · rintro ⟨n, hn, hb⟩
    rcases pass1State_covers notes g hnd n hn with ⟨m, hm, _, ht, _⟩
    exact ⟨m, hm, by rw [ht]; exact hb⟩

theorem mem_createdLinkEdges {N : List GNote} {n : ParsedNote} {a t : String} :
    (a, t) ∈ createdLinkEdges N n
      ↔ a = n.path ∧ ∃ m ∈ N, m.path = t ∧ m.title ∈ n.links := by
  unfold createdLinkEdges
  constructor
  · intro h
    rcases List.mem_flatten.mp h with ⟨b, hb, he⟩
    rcases List.mem_map.mp hb with ⟨l, hl, rfl⟩
    rcases List.mem_map.mp he with ⟨m, hm, hme⟩
    injection hme with he1 he2
    refine ⟨he1.symm, m, List.mem_of_mem_filter hm, he2, ?_⟩
    have hbt := List.of_mem_filter hm
    rw [eq_of_beq hbt]
    exact hl
  · rintro ⟨rfl, m, hm, rfl, hl⟩
    refine List.mem_flatten.mpr
      ⟨(N.filter (fun m' => m'.title == m.title)).map (fun m' => (n.path, m'.path)),
        List.mem_map.mpr ⟨m.title, hl, rfl⟩,
        List.mem_map.mpr ⟨m, List.mem_filter.mpr ⟨hm, beq_self_eq_true m.title⟩, rfl⟩⟩

/-- Claim C3: link-edge existence invariant.  After a structural sync pass
over a corpus with pairwise-distinct, non-empty paths: (1) a `links_to` edge
from note `n` to record `t` exists iff `t` is a corpus note whose title is
one of `n`'s wikilinks; (2) hence, for each wikilink title `T` of `n`, an
edge from `n` to a note titled `T` exists iff some corpus note titled `T`
exists (exact-case match: matching is by string equality); (3) the note table
holds exactly the on-disk paths — an unresolved wikilink produces no
placeholder node; (4) the `links` stat counts exactly the wikilinks whose
target title exists in the corpus. -/
theorem C3_link_edge_invariant (notes : List ParsedNote) (g : Graph)
    (hnd : (notes.map ParsedNote.path).Nodup)
    (hg : ∀ m ∈ g.notes, m.path ≠ "")
    (n : ParsedNote) (hn : n ∈ notes) :
    (∀ t : String,
      ((n.path, t) ∈ (sync_structural notes g).1.linkEdges
        ↔ ∃ m ∈ notes, m.path = t ∧ m.title ∈ n.links)) ∧
    (∀ T ∈ n.links,
      ((∃ t, (n.path, t) ∈ (sync_structural notes g).1.linkEdges ∧
          ∃ m ∈ notes, m.path = t ∧ m.title = T)
        ↔ ∃ m ∈ notes, m.title = T)) ∧
    (∀ p : String,
      ((∃ m ∈ (sync_structural notes g).1.notes, m.path = p)
        ↔ p ∈ notes.map ParsedNote.path)) ∧
    ((sync_structural notes g).2.links
      = (notes.map (fun n' => n'.links.countP
          (fun l => notes.any (fun m => m.title == l)))).sum) := by
  rw [sync_structural_decomp]
  obtain ⟨c1, c2, c3, c4, c5, c5t, c6, c7⟩ := pass2_foldl notes hnd (pass1State notes g)
    { notes := notes.length, tags := 0, links := 0,
      pruned := (pass0 (notes.map ParsedNote.path) g).2 }
  have hcontains : (notes.map ParsedNote.path).contains n.path = true :=
    List.elem_iff.mpr (List.mem_map.mpr ⟨n, hn, rfl⟩)
  have hedge : ∀ t : String,
      ((n.path, t) ∈ (notes.foldl syncNoteStruct (pass1State notes g,
          { notes := notes.length, tags := 0, links := 0,
            pruned := (pass0 (notes.map ParsedNote.path) g).2 })).1.linkEdges
        ↔ ∃ m ∈ notes, m.path = t ∧ m.title ∈ n.links) := by
    intro t
    rw [c4]
    constructor
    · intro h
      rcases List.mem_append.mp h with h | h
      · exfalso
        have := List.of_mem_filter h
        rw [hcontains] at this
        simp at this
      · rcases List.mem_flatten.mp h with ⟨b, hb, he⟩
        rcases List.mem_map.mp hb with ⟨n', hn', rfl⟩
        obtain ⟨hp, m, hm, hmt, hml⟩ := mem_createdLinkEdges.mp he
        have hn'n : n' = n :=
          List.inj_on_of_nodup_map hnd hn' hn hp.symm
        subst hn'n
        rcases pass1State_mem notes g hg m hm with ⟨m', hm', hp', ht', _⟩
        exact ⟨m', hm', hp' ▸ hmt, by rw [← ht']; exact hml⟩
    · rintro ⟨m', hm', rfl, hml⟩
      refine List.mem_append.mpr (.inr ?_)
      rcases pass1State_covers notes g hnd m' hm' with ⟨m, hm, hp, ht, _⟩
      refine List.mem_flatten.mpr
        ⟨createdLinkEdges (pass1State notes g).notes n,
          List.mem_map.mpr ⟨n, hn, rfl⟩,
          mem_createdLinkEdges.mpr ⟨rfl, m, hm, hp, by rw [ht]; exact hml⟩⟩
  refine ⟨hedge, ?_, ?_, ?_⟩
  · intro T hT
    constructor
    · rintro ⟨t, _, m, hm, _, hmt⟩
      exact ⟨m, hm, hmt⟩
    · rintro ⟨m, hm, hmt⟩
      exact ⟨m.path, (hedge m.path).mpr ⟨m, hm, rfl, hmt ▸ hT⟩, m, hm, rfl, hmt⟩
  · intro p
    rw [c1]
    constructor
    · rintro ⟨m, hm, rfl⟩
      rcases pass1State_mem notes g hg m hm with ⟨n', hn', hp, _, _⟩
      exact List.mem_map.mpr ⟨n', hn', hp⟩
    · intro hp
      rcases List.mem_map.mp hp with ⟨n', hn', rfl⟩
      rcases pass1State_covers notes g hnd n' hn' with ⟨m, hm, hp', _, _⟩
      exact ⟨m, hm, hp'⟩
  · rw [c5]
    have : notes.map (foundLinkCount (pass1State notes g).notes)
        = notes.map (fun n' => n'.links.countP
            (fun l => notes.any (fun m => m.title == l))) := by
      refine List.map_congr_left ?_
      intro n' _
      unfold foundLinkCount
      refine List.countP_congr ?_
      intro l _
      exact Bool.eq_iff_iff.mp (pass1State_any_title notes g hnd hg l)
    rw [this]
    simp

/-- Witness for C3: corpus `a.md` (titled `a`, linking to `b` and to the
missing title `c`) and `b.md` (titled `b`), synced into an empty graph:
the edge to `b.md` exists, no edge for `c` exists, and the link stat is 1. -/
theorem C3_link_edge_invariant_witness :
    ("a.md", "b.md") ∈ (sync_structural
      [⟨"a.md", "a", "x", [], ["b", "c"]⟩, ⟨"b.md", "b", "y", [], []⟩]
      ⟨[], [], [], [], []⟩).1.linkEdges ∧
    (sync_structural
      [⟨"a.md", "a", "x", [], ["b", "c"]⟩, ⟨"b.md", "b", "y", [], []⟩]
      ⟨[], [], [], [], []⟩).2.links = 1 := by
  have h := C3_link_edge_invariant
    [⟨"a.md", "a", "x", [], ["b", "c"]⟩, ⟨"b.md", "b", "y", [], []⟩]
    ⟨[], [], [], [], []⟩ (by decide) (by intro m hm; simp at hm)
    ⟨"a.md", "a", "x", [], ["b", "c"]⟩ (by decide)
  constructor
  · exact (h.1 "b.md").mpr
      ⟨⟨"b.md", "b", "y", [], []⟩, by decide, rfl, by decide⟩
  · rw [h.2.2.2]
    decide

/-! ### Claim C4: structural-sync idempotence -/

theorem filter_pred_idem {α : Type} (l : List α) (p : α → Bool) :
    (l.filter p).filter p = l.filter p := by
  rw [List.filter_filter]
  exact List.filter_congr (fun a _ => Bool.and_self _)

theorem hashesAt_congr {g1 g2 : Graph} (h : g1.notes = g2.notes) (p : String) :
    hashesAt g1 p = hashesAt g2 p := by
  unfold hashesAt
  rw [h]

theorem flatten_createdTag_filter_nil (notes : List ParsedNote) :
    ((notes.map createdTagEdges).flatten).filter
      (fun e => !((notes.map ParsedNote.path).contains e.1)) = [] := by
  rw [List.filter_eq_nil_iff]
  intro e he hpred
  rcases List.mem_flatten.mp he with ⟨b, hb, he'⟩
  rcases List.mem_map.mp hb with ⟨n', hn', rfl⟩
  have hc : (notes.map ParsedNote.path).contains n'.path = true :=
    List.elem_iff.mpr (List.mem_map.mpr ⟨n', hn', rfl⟩)
  rw [createdTagEdges_fst he', hc] at hpred
  simp at hpred

theorem flatten_createdLink_filter_nil (notes : List ParsedNote) (N : List GNote) :
    ((notes.map (createdLinkEdges N)).flatten).filter
      (fun e => !((notes.map ParsedNote.path).contains e.1)) = [] := by
  rw [List.filter_eq_nil_iff]
  intro e he hpred
  rcases List.mem_flatten.mp he with ⟨b, hb, he'⟩
  rcases List.mem_map.mp hb with ⟨n', hn', rfl⟩
  have hc : (notes.map ParsedNote.path).contains n'.path = true :=
    List.elem_iff.mpr (List.mem_map.mpr ⟨n', hn', rfl⟩)
  rw [createdLinkEdges_fst he', hc] at hpred
  simp at hpred

theorem structStats_ext {a b : StructStats} (h1 : a.notes = b.notes)
    (h2 : a.tags = b.tags) (h3 : a.links = b.links) (h4 : a.pruned = b.pruned) :
    a = b := by
  cases a
  cases b
  simp_all

theorem eraseHashes_tagEdges (g : Graph) : (eraseHashes g).tagEdges = g.tagEdges := rfl

theorem eraseHashes_linkEdges (g : Graph) : (eraseHashes g).linkEdges = g.linkEdges := rfl

theorem eraseHashes_notes (g : Graph) : (eraseHashes g).notes = g.notes.map ehNote := rfl

/-- Claim C4: structural-sync idempotence, with no corpus change between
runs (the corpus has pairwise-distinct, non-empty paths).  (1)–(3) The
second run reproduces exactly the first run's `tagged_with` and `links_to`
edge lists and its note table.  (4) The first run leaves every stored
`content_hash` of an on-disk note untouched (a freshly created row carries
no hash — the field is never written).  (5) The second run changes no stored
hash at all.  (6)–(8) Neither run reads any `content_hash`: running on the
graph with every stored hash erased produces identical edge lists and
identical stats. -/
theorem C4_structural_idempotence (notes : List ParsedNote) (g : Graph)
    (hnd : (notes.map ParsedNote.path).Nodup)
    (hg : ∀ m ∈ g.notes, m.path ≠ "") :
    ((sync_structural notes (sync_structural notes g).1).1.tagEdges
      = (sync_structural notes g).1.tagEdges) ∧
    ((sync_structural notes (sync_structural notes g).1).1.linkEdges
      = (sync_structural notes g).1.linkEdges) ∧
    ((sync_structural notes (sync_structural notes g).1).1.notes
      = (sync_structural notes g).1.notes) ∧
    (∀ p ∈ notes.map ParsedNote.path,
      hashesAt (sync_structural notes g).1 p
        = if hashesAt g p = [] then [none] else hashesAt g p) ∧
    (∀ p, hashesAt (sync_structural notes (sync_structural notes g).1).1 p
        = hashesAt (sync_structural notes g).1 p) ∧
    ((sync_structural notes (eraseHashes g)).1.tagEdges
      = (sync_structural notes g).1.tagEdges) ∧
    ((sync_structural notes (eraseHashes g)).1.linkEdges
      = (sync_structural notes g).1.linkEdges) ∧
    ((sync_structural notes (eraseHashes g)).2 = (sync_structural notes g).2) := by
  obtain ⟨a1, a2, a3, a4, a5, a5t, a6, a7⟩ := pass2_foldl notes hnd (pass1State notes g)
    { notes := notes.length, tags := 0, links := 0,
      pruned := (pass0 (notes.map ParsedNote.path) g).2 }
  rw [sync_structural_decomp notes g]
  set R1 := (notes.foldl syncNoteStruct (pass1State notes g,
    { notes := notes.length, tags := 0, links := 0,
      pruned := (pass0 (notes.map ParsedNote.path) g).2 })).1 with hR1
  -- Run 2 prunes nothing and pass 1 is the identity on R1.
  have hnoop : pass0 (notes.map ParsedNote.path) R1 = (R1, 0) := by
    refine pass0_noop _ R1 ?_
    intro m hm
    rw [hR1, a1] at hm
    exact pass1State_disk notes g hg m hm
  have hcov : ∀ n ∈ notes, ∃ m ∈ R1.notes, m.path = n.path := by
    intro n hn
    rcases pass1State_covers notes g hnd n hn with ⟨m, hm, hp, _, _⟩
    exact ⟨m, by rw [hR1, a1]; exact hm, hp⟩
  have halign : ∀ m ∈ R1.notes, ∀ n ∈ notes, n.path = m.path →
      m.title = n.title ∧ m.content = n.content := by
    intro m hm n hn hp
    rw [hR1, a1] at hm
    rcases pass1State_mem notes g hg m hm with ⟨n'', hn'', hp'', ht'', hc''⟩
    have : n'' = n := List.inj_on_of_nodup_map hnd hn'' hn (hp''.trans hp.symm)
    subst this
    exact ⟨ht'', hc''⟩
  have hrun2 : sync_structural notes R1
      = notes.foldl syncNoteStruct (R1,
          { notes := notes.length, tags := 0, links := 0, pruned := 0 }) := by
    rw [sync_structural_decomp notes R1, pass1State_notes_pass0, hnoop]
    simp only [ne_eq]
    norm_num
    rw [upsert_fold_id notes R1 hcov halign]
  obtain ⟨b1, b2, b3, b4, b5, b5t, b6, b7⟩ := pass2_foldl notes hnd R1
    { notes := notes.length, tags := 0, links := 0, pruned := 0 }
  -- First run's edge lists, re-expressed.
  have hR1tag : R1.tagEdges
      = (pass1State notes g).tagEdges.filter
          (fun e => !((notes.map ParsedNote.path).contains e.1))
        ++ (notes.map createdTagEdges).flatten := a3
  have hR1link : R1.linkEdges
      = (pass1State notes g).linkEdges.filter
          (fun e => !((notes.map ParsedNote.path).contains e.1))
        ++ (notes.map (createdLinkEdges (pass1State notes g).notes)).flatten := a4
  -- The run on the hash-erased graph.
  have hps_e : pass1State notes (eraseHashes g)
      = eraseHashes (pass1State notes g) := by
    rw [pass1State_notes_pass0, pass1State_notes_pass0, pass0_erase,
      ← upsert_fold_erase]
    congr 1
    by_cases hpr : (pass0 (notes.map ParsedNote.path) g).2 ≠ 0
    · rw [if_pos hpr, if_pos hpr, cleanOrphanTags_erase]
    · rw [if_neg hpr, if_neg hpr]
  have hrun_e : sync_structural notes (eraseHashes g)
      = notes.foldl syncNoteStruct (eraseHashes (pass1State notes g),
          { notes := notes.length, tags := 0, links := 0,
            pruned := (pass0 (notes.map ParsedNote.path) g).2 }) := by
    rw [sync_structural_decomp, hps_e, pass0_erase]
  obtain ⟨e1, e2, e3, e4, e5, e5t, e6, e7⟩ := pass2_foldl notes hnd
    (eraseHashes (pass1State notes g))
    { notes := notes.length, tags := 0, links := 0,
      pruned := (pass0 (notes.map ParsedNote.path) g).2 }
  refine ⟨?_, ?_, ?_, ?_, ?_, ?_, ?_, ?_⟩
  · rw [hrun2, b3, hR1tag, List.filter_append, filter_pred_idem,
      flatten_createdTag_filter_nil, List.append_nil]
  · rw [hrun2, b4, hR1link, List.filter_append, filter_pred_idem,
      flatten_createdLink_filter_nil, List.append_nil, a1]
  · rw [hrun2, b1]
  · intro p hp
    have hc : (notes.map ParsedNote.path).contains p = true := List.elem_iff.mpr hp
    rw [hashesAt_congr a1 p, pass1State_notes_pass0,
      upsert_fold_hashesAt_in notes hnd p hp]
    have hg0 : hashesAt
        (if (pass0 (notes.map ParsedNote.path) g).2 ≠ 0
          then cleanOrphanTags (pass0 (notes.map ParsedNote.path) g).1
          else (pass0 (notes.map ParsedNote.path) g).1) p = hashesAt g p := by
      have h1 : hashesAt
          (if (pass0 (notes.map ParsedNote.path) g).2 ≠ 0
            then cleanOrphanTags (pass0 (notes.map ParsedNote.path) g).1
            else (pass0 (notes.map ParsedNote.path) g).1) p
          = hashesAt (pass0 (notes.map ParsedNote.path) g).1 p := by
        split
        · exact hashesAt_congr (cleanOrphanTags_notes _) p
        · rfl
      rw [h1]
      exact pass0_hashesAt _ g p hg hc
    rw [hg0]
  · intro p
    rw [hrun2]
    exact hashesAt_congr b1 p
  · rw [hrun_e, e3, eraseHashes_tagEdges, a3]
  · rw [hrun_e, e4, eraseHashes_linkEdges, a4]
    have hcreate : notes.map (createdLinkEdges
          (eraseHashes (pass1State notes g)).notes)
        = notes.map (createdLinkEdges (pass1State notes g).notes) := by
      refine List.map_congr_left ?_
      intro n' _
      rw [eraseHashes_notes, createdLinkEdges_erase]
    rw [hcreate]
  · refine structStats_ext ?_ ?_ ?_ ?_
    · rw [hrun_e, e6, a6]
    · rw [hrun_e, e5t, a5t]
    · rw [hrun_e, e5, a5]
      have hfound : notes.map (foundLinkCount
            (eraseHashes (pass1State notes g)).notes)
          = notes.map (foundLinkCount (pass1State notes g).notes) := by
        refine List.map_congr_left ?_
        intro n' _
        rw [eraseHashes_notes, foundLinkCount_erase]
      rw [hfound]
    · rw [hrun_e, e7, a7]

/-- Witness for C4: a two-note corpus synced over a graph holding a stale
note `c.md` (with a stored hash) and a stale tag edge.  The second run
reproduces the first run's tag-edge list exactly, and the freshly created
row for `a.md` carries no content hash. -/
theorem C4_structural_idempotence_witness :
    ((sync_structural
        [⟨"a.md", "a", "x", ["t"], ["b"]⟩, ⟨"b.md", "b", "y", [], []⟩]
        (sync_structural
          [⟨"a.md", "a", "x", ["t"], ["b"]⟩, ⟨"b.md", "b", "y", [], []⟩]
          ⟨[⟨"c.md", "c", "z", some "h"⟩], ["old"], [("c.md", "old")], [], []⟩).1).1.tagEdges
      = (sync_structural
          [⟨"a.md", "a", "x", ["t"], ["b"]⟩, ⟨"b.md", "b", "y", [], []⟩]
          ⟨[⟨"c.md", "c", "z", some "h"⟩], ["old"], [("c.md", "old")], [], []⟩).1.tagEdges) ∧
    hashesAt (sync_structural
        [⟨"a.md", "a", "x", ["t"], ["b"]⟩, ⟨"b.md", "b", "y", [], []⟩]
        ⟨[⟨"c.md", "c", "z", some "h"⟩], ["old"], [("c.md", "old")], [], []⟩).1 "a.md"
      = [none] := by
  have h := C4_structural_idempotence
    [⟨"a.md", "a", "x", ["t"], ["b"]⟩, ⟨"b.md", "b", "y", [], []⟩]
    ⟨[⟨"c.md", "c", "z", some "h"⟩], ["old"], [("c.md", "old")], [], []⟩
    (by decide) (by decide)
  refine ⟨h.1, ?_⟩
  rw [h.2.2.2.1 "a.md" (by decide)]
  decide

/-! ## Paths and the filesystem (`notes.py`)

Absolute paths are canonical segment lists from the filesystem root.
`Path.resolve()` is modelled without symlinks: `.` and empty segments are
dropped, `..` pops one segment (a no-op at the root).  The filesystem is a
map from resolved path to file text; directories are implicit, so `mkdir`
is a no-op.  The on-disk serialization of a note (front-matter plus body)
is abstracted to the stored text: no claim inspects the serialized syntax.
An operation that raises returns `.error` and no filesystem, mirroring the
source's check-before-write ordering: every guard in `notes.py` runs before
the first write, move or delete.
-/

/-- A resolved absolute path. -/
abbrev FPath := List String

/-- Split a character list on a separator (the semantics of Python
`str.split(sep)` for a one-character separator, and of `String.splitOn`),
written structurally so that it evaluates by kernel reduction. -/
def splitOnChar (sep : Char) : List Char → List (List Char)
  | [] => [[]]
  | c :: rest =>
    match splitOnChar sep rest with
    | [] => [[]]
    | h :: t => if c = sep then [] :: h :: t else (c :: h) :: t

/-- Split a path string into raw segments on `/`. -/
def splitSegs (s : String) : List String :=
  (splitOnChar '/' s.toList).map (fun l => String.mk l)

/-- Does the string start with a slash (an absolute path)? -/
def startsWithSlash (s : String) : Bool :=
  match s.toList with
  | '/' :: _ => true
  | _ => false

/-- One step of path resolution. -/
def resolveStep (acc : FPath) (seg : String) : FPath :=
  if seg = "" ∨ seg = "." then acc
  else if seg = ".." then acc.dropLast
  else acc ++ [seg]

/-- Resolve a raw segment list from the filesystem root. -/
def resolveSegs (segs : List String) : FPath := segs.foldl resolveStep []

/-- `pathlib` join `base / rel` on raw segments: an absolute `rel` (leading
slash) replaces `base`. -/
def rawJoin (base : List String) (rel : String) : List String :=
  if startsWithSlash rel then splitSegs rel else base ++ splitSegs rel

/-- `Path.is_relative_to`. -/
def isWithin (root p : FPath) : Bool := root.isPrefixOf p

inductive PyErr where
  | valueError
  | fileNotFoundError
  | fileExistsError
deriving Repr, DecidableEq

/-- `_ensure_within_notes_dir(notes_path, file_path)`: resolve and verify
the path lives inside the notes directory, else `ValueError` — before any
filesystem access. -/
def _ensure_within_notes_dir (notes : List String) (raw : List String) :
    Except PyErr FPath :=
  let resolved := resolveSegs raw
  if isWithin (resolveSegs notes) resolved then .ok resolved
  else .error .valueError

/-- The filesystem as an association list from resolved path to text. -/
structure Fs where
  files : List (FPath × String)
deriving Repr, DecidableEq

def Fs.get (fs : Fs) (p : FPath) : Option String := fs.files.lookup p

def Fs.set (fs : Fs) (p : FPath) (v : String) : Fs :=
  ⟨(p, v) :: fs.files.filter (fun e => e.1 != p)⟩

def Fs.remove (fs : Fs) (p : FPath) : Fs :=
  ⟨fs.files.filter (fun e => e.1 != p)⟩

/-- `write_note`: build `notes_path / folder / f"{title}.md"` (or without
the folder), verify containment, then create directories and write.  The
`tags`/`metadata` parameters only affect the serialized front matter and
are omitted. -/
def write_note (fs : Fs) (notes : List String) (title folder content : String) :
    Except PyErr (Fs × FPath) :=
  let raw := if folder ≠ "" then rawJoin (rawJoin notes folder) (title ++ ".md")
             else rawJoin notes (title ++ ".md")
  match _ensure_within_notes_dir notes raw with
  | .error e => .error e
  | .ok fp => .ok (fs.set fp content, fp)

/-- `rewrite_note`: locate the note (by relative path if given, else by
title), verify containment, require existence, then rewrite its content. -/
def rewrite_note (fs : Fs) (notes : List String) (title relPath newContent : String) :
    Except PyErr (Fs × FPath) :=
  let raw := if relPath ≠ "" then rawJoin notes relPath
             else rawJoin notes (title ++ ".md")
  match _ensure_within_notes_dir notes raw with
  | .error e => .error e
  | .ok fp =>
    match fs.get fp with
    | none => .error .fileNotFoundError
    | some _ => .ok (fs.set fp newContent, fp)

/-- `with_stem(f"{stem}_{ts}")` on a file name with a normal extension. -/
def stemSuffix (name ts : String) : String :=
  let parts := (splitOnChar '.' name.toList).map (fun l => String.mk l)
  if parts.length ≤ 1 then name ++ "_" ++ ts
  else String.intercalate "." parts.dropLast ++ "_" ++ ts ++ "." ++ parts.getLastD ""

def withStemTs (p : FPath) (ts : String) : FPath :=
  p.dropLast ++ [stemSuffix (p.getLastD "") ts]

/-- `move_to_trash`: verify containment, require existence, move the file
under `.trash/` preserving the relative layout, appending the timestamp
`ts` to the stem when the trash destination is already occupied. -/
def move_to_trash (fs : Fs) (notes : List String) (rel ts : String) :
    Except PyErr (Fs × FPath) :=
  match _ensure_within_notes_dir notes (rawJoin notes rel) with
  | .error e => .error e
  | .ok fp =>
    match fs.get fp with
    | none => .error .fileNotFoundError
    | some content =>
      let trash0 := resolveSegs (rawJoin (notes ++ [".trash"]) rel)
      let trash := if (fs.get trash0).isSome then withStemTs trash0 ts else trash0
      .ok ((fs.remove fp).set trash content, trash)

/-- `restore_from_trash`: the trash entry must resolve inside `.trash`
(`ValueError`), exist (`FileNotFoundError`); the original location must be
inside the notes directory and unoccupied (`FileExistsError`); then move
the file back. -/
def restore_from_trash (fs : Fs) (notes : List String) (trashRel : String) :
    Except PyErr (Fs × FPath) :=
  let trashDir := notes ++ [".trash"]
  let trash := resolveSegs (rawJoin trashDir trashRel)
  if isWithin (resolveSegs trashDir) trash then
    match fs.get trash with
    | none => .error .fileNotFoundError
    | some content =>
      match _ensure_within_notes_dir notes (rawJoin notes trashRel) with
      | .error e => .error e
      | .ok orig =>
        if (fs.get orig).isSome then .error .fileExistsError
        else .ok ((fs.remove trash).set orig content, orig)
  else .error .valueError

def _INVALID_TITLE_CHARS : List Char := ['/', '\\', '\x00', ':', '*', '?', '"', '<', '>', '|']

def pyStripStr (s : String) : String := String.mk (pyStrip s.toList)

/-- `Path.stem` for the final component. -/
def stemOf (name : String) : String :=
  let parts := (splitOnChar '.' name.toList).map (fun l => String.mk l)
  if parts.length ≤ 1 then name else String.intercalate "." parts.dropLast

/-- `rename_note`: validate the new title (empty/dot names, forbidden
characters, over-long UTF-8), verify the old path, require existence, build
the sibling path `f"{new_title}.md"`, verify it, require it unoccupied,
then rename.  Returns the old title with the new path. -/
def rename_note (fs : Fs) (notes : List String) (oldRel newTitle : String) :
    Except PyErr (Fs × String × FPath) :=
  let stripped := pyStripStr newTitle
  if stripped = "" ∨ stripped = "." ∨ stripped = ".." then .error .valueError
  else if newTitle.toList.any (fun c => _INVALID_TITLE_CHARS.contains c) then
    .error .valueError
  else if 255 < newTitle.utf8ByteSize then .error .valueError
  else
    match _ensure_within_notes_dir notes (rawJoin notes oldRel) with
    | .error e => .error e
    | .ok oldPath =>
      match fs.get oldPath with
      | none => .error .fileNotFoundError
      | some content =>
        let newPath := oldPath.dropLast ++ [newTitle ++ ".md"]
        match _ensure_within_notes_dir notes newPath with
        | .error e => .error e
        | .ok _ =>
          if (fs.get newPath).isSome then .error .fileExistsError
          else .ok ((fs.remove oldPath).set newPath content,
            stemOf (oldPath.getLastD ""), newPath)

example :
    (write_note ⟨[]⟩ ["home", "notes"] "../evil" "" "x").toOption = none := by
  decide

example :
    (write_note ⟨[]⟩ ["home", "notes"] "a" "sub" "x").toOption.map Prod.snd
      = some ["home", "notes", "sub", "a.md"] := by
  decide

/-- Claim C5: path-traversal rejection before I/O.  For each note operation
that derives a file path from user input — `write_note` (title/folder),
`rewrite_note` (title/relative path), `move_to_trash`, `rename_note`
(old relative path), `restore_from_trash` (trash-relative path) — if the
resolved path falls outside the notes root (for `restore_from_trash`,
outside the trash subtree), the call returns `ValueError` and performs no
filesystem mutation: the result carries no new filesystem state, matching
the source, where every guard precedes the first write, move or delete. -/
theorem C5_path_traversal_rejected :
    (∀ (fs : Fs) (notes : List String) (title folder content : String),
      isWithin (resolveSegs notes)
          (resolveSegs (if folder ≠ "" then rawJoin (rawJoin notes folder) (title ++ ".md")
            else rawJoin notes (title ++ ".md"))) = false →
      write_note fs notes title folder content = .error .valueError) ∧
    (∀ (fs : Fs) (notes : List String) (title relPath newContent : String),
      isWithin (resolveSegs notes)
          (resolveSegs (if relPath ≠ "" then rawJoin notes relPath
            else rawJoin notes (title ++ ".md"))) = false →
      rewrite_note fs notes title relPath newContent = .error .valueError) ∧
    (∀ (fs : Fs) (notes : List String) (rel ts : String),
      isWithin (resolveSegs notes) (resolveSegs (rawJoin notes rel)) = false →
      move_to_trash fs notes rel ts = .error .valueError) ∧
    (∀ (fs : Fs) (notes : List String) (oldRel newTitle : String),
      isWithin (resolveSegs notes) (resolveSegs (rawJoin notes oldRel)) = false →
      rename_note fs notes oldRel newTitle = .error .valueError) ∧
    (∀ (fs : Fs) (notes : List String) (trashRel : String),
      isWithin (resolveSegs (notes ++ [".trash"]))
          (resolveSegs (rawJoin (notes ++ [".trash"]) trashRel)) = false →
      restore_from_trash fs notes trashRel = .error .valueError) := by
  refine ⟨?_, ?_, ?_, ?_, ?_⟩
  · intro fs notes title folder content h
    unfold write_note _ensure_within_notes_dir
    simp only [h]
    rfl
  · intro fs notes title relPath newContent h
    unfold rewrite_note _ensure_within_notes_dir
    simp only [h]
    rfl
  · intro fs notes rel ts h
    unfold move_to_trash _ensure_within_notes_dir
    simp only [h]
    rfl
  · intro fs notes oldRel newTitle h
    unfold rename_note _ensure_within_notes_dir
    simp only [h]
    split_ifs <;> simp_all
  · intro fs notes trashRel h
    unfold restore_from_trash
    simp only [h]
    rfl

/-- Witness for C5: `../`-traversal attempts against the root
`/home/notes`, one per operation, each rejected with `ValueError`. -/
theorem C5_path_traversal_rejected_witness :
    write_note ⟨[]⟩ ["home", "notes"] "../evil" "" "x" = .error .valueError ∧
    rewrite_note ⟨[]⟩ ["home", "notes"] "t" "../evil.md" "x" = .error .valueError ∧
    move_to_trash ⟨[]⟩ ["home", "notes"] "../evil.md" "20240101" = .error .valueError ∧
    rename_note ⟨[]⟩ ["home", "notes"] "../evil.md" "t" = .error .valueError ∧
    restore_from_trash ⟨[]⟩ ["home", "notes"] "../../evil.md" = .error .valueError := by
  exact ⟨C5_path_traversal_rejected.1 ⟨[]⟩ ["home", "notes"] "../evil" "" "x" (by decide),
    C5_path_traversal_rejected.2.1 ⟨[]⟩ ["home", "notes"] "t" "../evil.md" "x" (by decide),
    C5_path_traversal_rejected.2.2.1 ⟨[]⟩ ["home", "notes"] "../evil.md" "20240101" (by decide),
    C5_path_traversal_rejected.2.2.2.1 ⟨[]⟩ ["home", "notes"] "../evil.md" "t" (by decide),
    C5_path_traversal_rejected.2.2.2.2 ⟨[]⟩ ["home", "notes"] "../../evil.md" (by decide)⟩

/-! ### Trash round trip (C6)

Plain relative paths (no empty, `.` or `..` segments) resolve by plain
concatenation; `Fs` lookups after `set`/`remove` follow association-list
laws.  These characterize `move_to_trash`/`restore_from_trash` exactly. -/

/-- A path segment that resolution passes through unchanged. -/
abbrev plainSeg (s : String) : Prop := s ≠ "" ∧ s ≠ "." ∧ s ≠ ".."

theorem foldl_resolveStep_plain (l : List String)
    (hl : ∀ s ∈ l, plainSeg s) :
    ∀ base : FPath, l.foldl resolveStep base = base ++ l := by
  induction l with
  | nil => intro base; simp
  | cons s l ih =>
    intro base
    obtain ⟨h1, h2, h3⟩ := hl s (List.mem_cons_self s l)
    have hstep : resolveStep base s = base ++ [s] := by
      unfold resolveStep
      rw [if_neg (by simp [h1, h2]), if_neg h3]
    rw [List.foldl_cons, hstep, ih (fun t ht => hl t (List.mem_cons_of_mem s ht))]
    simp

theorem resolveSegs_append_plain (l1 l2 : List String)
    (h : ∀ s ∈ l2, plainSeg s) :
    resolveSegs (l1 ++ l2) = resolveSegs l1 ++ l2 := by
  unfold resolveSegs
  rw [List.foldl_append, foldl_resolveStep_plain l2 h]

theorem rawJoin_resolve (base : List String) (rel : String)
    (hb : resolveSegs base = base)
    (habs : startsWithSlash rel = false)
    (hpl : ∀ s ∈ splitSegs rel, plainSeg s) :
    resolveSegs (rawJoin base rel) = base ++ splitSegs rel := by
  unfold rawJoin
  rw [if_neg (by simp [habs])]
  rw [resolveSegs_append_plain base (splitSegs rel) hpl, hb]

theorem isWithin_append (root l : List String) : isWithin root (root ++ l) = true := by
  unfold isWithin
  rw [List.isPrefixOf_iff_prefix]
  exact List.prefix_append root l

theorem trash_resolve (notes : List String) (rel : String)
    (hn : resolveSegs notes = notes) (habs : startsWithSlash rel = false)
    (hpl : ∀ s ∈ splitSegs rel, plainSeg s) :
    resolveSegs (rawJoin (notes ++ [".trash"]) rel) = notes ++ ".trash" :: splitSegs rel := by
  have hn' : resolveSegs (notes ++ [".trash"]) = notes ++ [".trash"] := by
    rw [resolveSegs_append_plain notes [".trash"] (by intro s hs; simp at hs; subst hs; exact ⟨by decide, by decide, by decide⟩), hn]
  rw [rawJoin_resolve (notes ++ [".trash"]) rel hn' habs hpl]
  simp

theorem ensure_plain (notes : List String) (rel : String)
    (hn : resolveSegs notes = notes) (habs : startsWithSlash rel = false)
    (hpl : ∀ s ∈ splitSegs rel, plainSeg s) :
    _ensure_within_notes_dir notes (rawJoin notes rel) = .ok (notes ++ splitSegs rel) := by
  unfold _ensure_within_notes_dir
  rw [rawJoin_resolve notes rel hn habs hpl, hn,
    if_pos (isWithin_append notes (splitSegs rel))]

theorem lookup_filter_ne (l : List (FPath × String)) (p q : FPath) (h : q ≠ p) :
    (l.filter (fun e => e.1 != p)).lookup q = l.lookup q := by
  induction l with
  | nil => rfl
  | cons e l ih =>
    obtain ⟨a, v⟩ := e
    by_cases hap : a = p
    · subst hap
      have hq : (q == a) = false := by simp [h]
      simp [List.filter_cons, List.lookup, hq, ih]
    · by_cases hqa : q = a
      · subst hqa
        simp [List.filter_cons, List.lookup, hap, ih]
      · have hq : (q == a) = false := by simp [hqa]
        simp [List.filter_cons, List.lookup, hap, hq, ih]

theorem lookup_filter_self (l : List (FPath × String)) (p : FPath) :
    (l.filter (fun e => e.1 != p)).lookup p = none := by
  induction l with
  | nil => rfl
  | cons e l ih =>
    obtain ⟨a, v⟩ := e
    by_cases hap : a = p
    · subst hap
      simp [List.filter_cons, ih]
    · have hpa : (p == a) = false := by
        have : ¬ p = a := fun hh => hap hh.symm
        simp [this]
      simp [List.filter_cons, List.lookup, hap, hpa, ih]

theorem Fs.get_set_self (fs : Fs) (p : FPath) (v : String) :
    (fs.set p v).get p = some v := by
  simp [Fs.get, Fs.set, List.lookup]

theorem Fs.get_set_ne (fs : Fs) (p : FPath) (v : String) (q : FPath) (h : q ≠ p) :
    (fs.set p v).get q = fs.get q := by
  have hq : (q == p) = false := by simp [h]
  simp only [Fs.get, Fs.set, List.lookup, hq]
  exact lookup_filter_ne fs.files p q h

theorem Fs.get_remove_self (fs : Fs) (p : FPath) : (fs.remove p).get p = none :=
  lookup_filter_self fs.files p

theorem Fs.get_remove_ne (fs : Fs) (p q : FPath) (h : q ≠ p) :
    (fs.remove p).get q = fs.get q :=
  lookup_filter_ne fs.files p q h

theorem trash_ne_orig (notes segs : List String) :
    notes ++ ".trash" :: segs ≠ notes ++ segs := by
  intro h
  have := congrArg List.length h
  simp at this

/-- Claim C6: trash round trip.  For a plain relative path under a canonical
notes root: (1) deleting a present note whose trash slot is free moves the
file to `.trash/<rel>`, preserving the relative layout; (2) on a collision
(trash slot occupied) the timestamp-suffixed slot is used instead, the
prior trash entry keeps its content and the new entry holds the deleted
file, so both remain independently addressable; (3) restoring a present
trash entry whose original path is unoccupied moves it back to the original
path; (4) delete-then-restore is the identity on the filesystem, content
unchanged; (5) restore with the original path occupied raises
`FileExistsError`; (6) restore of a missing trash entry raises
`FileNotFoundError`. -/
theorem C6_trash_round_trip (fs : Fs) (notes : List String) (rel ts : String) (c d : String)
    (hn : resolveSegs notes = notes)
    (habs : startsWithSlash rel = false)
    (hpl : ∀ s ∈ splitSegs rel, plainSeg s) :
    (fs.get (notes ++ splitSegs rel) = some c →
     fs.get (notes ++ ".trash" :: splitSegs rel) = none →
     move_to_trash fs notes rel ts =
       .ok ((fs.remove (notes ++ splitSegs rel)).set (notes ++ ".trash" :: splitSegs rel) c,
         notes ++ ".trash" :: splitSegs rel)) ∧
    (fs.get (notes ++ splitSegs rel) = some c →
     fs.get (notes ++ ".trash" :: splitSegs rel) = some d →
     move_to_trash fs notes rel ts =
       .ok ((fs.remove (notes ++ splitSegs rel)).set
         (withStemTs (notes ++ ".trash" :: splitSegs rel) ts) c,
         withStemTs (notes ++ ".trash" :: splitSegs rel) ts) ∧
     (withStemTs (notes ++ ".trash" :: splitSegs rel) ts ≠ notes ++ ".trash" :: splitSegs rel →
       ((fs.remove (notes ++ splitSegs rel)).set
         (withStemTs (notes ++ ".trash" :: splitSegs rel) ts) c).get
           (notes ++ ".trash" :: splitSegs rel) = some d) ∧
     ((fs.remove (notes ++ splitSegs rel)).set
       (withStemTs (notes ++ ".trash" :: splitSegs rel) ts) c).get
         (withStemTs (notes ++ ".trash" :: splitSegs rel) ts) = some c) ∧
    (fs.get (notes ++ ".trash" :: splitSegs rel) = some c →
     fs.get (notes ++ splitSegs rel) = none →
     restore_from_trash fs notes rel =
       .ok ((fs.remove (notes ++ ".trash" :: splitSegs rel)).set (notes ++ splitSegs rel) c,
         notes ++ splitSegs rel)) ∧
    (fs.get (notes ++ splitSegs rel) = some c →
     fs.get (notes ++ ".trash" :: splitSegs rel) = none →
     ∀ p : FPath,
       ((((fs.remove (notes ++ splitSegs rel)).set (notes ++ ".trash" :: splitSegs rel) c).remove
         (notes ++ ".trash" :: splitSegs rel)).set (notes ++ splitSegs rel) c).get p = fs.get p) ∧
    (fs.get (notes ++ ".trash" :: splitSegs rel) = some c →
     fs.get (notes ++ splitSegs rel) = some d →
     restore_from_trash fs notes rel = .error .fileExistsError) ∧
    (fs.get (notes ++ ".trash" :: splitSegs rel) = none →
     restore_from_trash fs notes rel = .error .fileNotFoundError) := by
  have hens := ensure_plain notes rel hn habs hpl
  have ht := trash_resolve notes rel hn habs hpl
  have hto : notes ++ ".trash" :: splitSegs rel ≠ notes ++ splitSegs rel :=
    trash_ne_orig notes (splitSegs rel)
  have htd : resolveSegs (notes ++ [".trash"]) = notes ++ [".trash"] := by
    rw [resolveSegs_append_plain notes [".trash"]
      (by intro s hs; simp at hs; subst hs; exact ⟨by decide, by decide, by decide⟩), hn]
  have hwl : isWithin (resolveSegs (notes ++ [".trash"]))
      (notes ++ ".trash" :: splitSegs rel) = true := by
    rw [htd]
    have hx : notes ++ ".trash" :: splitSegs rel = (notes ++ [".trash"]) ++ splitSegs rel := by
      simp
    rw [hx]
    exact isWithin_append _ _
  refine ⟨?_, ?_, ?_, ?_, ?_, ?_⟩
  · intro h1 h2
    unfold move_to_trash
    rw [hens]
    dsimp only
    rw [h1]
    dsimp only
    rw [ht, h2]
    rfl
  · intro h1 h2
    refine ⟨?_, ?_, ?_⟩
    · unfold move_to_trash
      rw [hens]
      dsimp only
      rw [h1]
      dsimp only
      rw [ht, h2]
      rfl
    · intro hne
      rw [Fs.get_set_ne _ _ _ _ (Ne.symm hne), Fs.get_remove_ne _ _ _ hto]
      exact h2
    · exact Fs.get_set_self _ _ _
  · intro h1 h2
    unfold restore_from_trash
    dsimp only
    rw [ht, if_pos hwl, h1]
    dsimp only
    rw [hens]
    dsimp only
    rw [h2]
    rfl
  · intro h1 h2 p
    by_cases hp1 : p = notes ++ splitSegs rel
    · subst hp1
      rw [Fs.get_set_self, h1]
    · rw [Fs.get_set_ne _ _ _ _ hp1]
      by_cases hp2 : p = notes ++ ".trash" :: splitSegs rel
      · subst hp2
        rw [Fs.get_remove_self, h2]
      · rw [Fs.get_remove_ne _ _ _ hp2, Fs.get_set_ne _ _ _ _ hp2,
          Fs.get_remove_ne _ _ _ hp1]
  · intro h1 h2
    unfold restore_from_trash
    dsimp only
    rw [ht, if_pos hwl, h1]
    dsimp only
    rw [hens]
    dsimp only
    rw [h2]
    rfl
  · intro h1
    unfold restore_from_trash
    dsimp only
    rw [ht, if_pos hwl, h1]

/-- Witness for C6: a concrete corpus under `/home/notes` with note
`sub/a.md`: delete and restore round-trip; a second note deleted into the
same slot lands at `a_20240101.md`; both trash entries restore
independently; occupied-original and missing-entry errors. -/
theorem C6_trash_round_trip_witness :
    (move_to_trash ⟨[(["home", "notes", "sub", "a.md"], "hello")]⟩ ["home", "notes"]
        "sub/a.md" "20240101"
      = .ok (⟨[(["home", "notes", ".trash", "sub", "a.md"], "hello")]⟩,
          ["home", "notes", ".trash", "sub", "a.md"])) ∧
    (restore_from_trash ⟨[(["home", "notes", ".trash", "sub", "a.md"], "hello")]⟩
        ["home", "notes"] "sub/a.md"
      = .ok (⟨[(["home", "notes", "sub", "a.md"], "hello")]⟩,
          ["home", "notes", "sub", "a.md"])) ∧
    (move_to_trash ⟨[(["home", "notes", "sub", "a.md"], "new"),
        (["home", "notes", ".trash", "sub", "a.md"], "old")]⟩ ["home", "notes"]
        "sub/a.md" "20240101"
      = .ok (⟨[(["home", "notes", ".trash", "sub", "a_20240101.md"], "new"),
               (["home", "notes", ".trash", "sub", "a.md"], "old")]⟩,
          ["home", "notes", ".trash", "sub", "a_20240101.md"])) ∧
    (restore_from_trash ⟨[(["home", "notes", ".trash", "sub", "a_20240101.md"], "new"),
        (["home", "notes", ".trash", "sub", "a.md"], "old")]⟩ ["home", "notes"] "sub/a.md"
      = .ok (⟨[(["home", "notes", "sub", "a.md"], "old"),
               (["home", "notes", ".trash", "sub", "a_20240101.md"], "new")]⟩,
          ["home", "notes", "sub", "a.md"])) ∧
    (restore_from_trash ⟨[(["home", "notes", ".trash", "sub", "a_20240101.md"], "new"),
        (["home", "notes", ".trash", "sub", "a.md"], "old")]⟩ ["home", "notes"]
        "sub/a_20240101.md"
      = .ok (⟨[(["home", "notes", "sub", "a_20240101.md"], "new"),
               (["home", "notes", ".trash", "sub", "a.md"], "old")]⟩,
          ["home", "notes", "sub", "a_20240101.md"])) ∧
    (restore_from_trash ⟨[(["home", "notes", ".trash", "sub", "a.md"], "x"),
        (["home", "notes", "sub", "a.md"], "y")]⟩ ["home", "notes"] "sub/a.md"
      = .error .fileExistsError) ∧
    (restore_from_trash ⟨[]⟩ ["home", "notes"] "sub/a.md" = .error .fileNotFoundError) := by
  refine ⟨?_, ?_, ?_, ?_, ?_, ?_, ?_⟩
  · exact ((C6_trash_round_trip ⟨[(["home", "notes", "sub", "a.md"], "hello")]⟩
      ["home", "notes"] "sub/a.md" "20240101" "hello" ""
      (by decide) (by decide) (by decide)).1 (by decide) (by decide)).trans (by rfl)
  · exact ((C6_trash_round_trip ⟨[(["home", "notes", ".trash", "sub", "a.md"], "hello")]⟩
      ["home", "notes"] "sub/a.md" "20240101" "hello" ""
      (by decide) (by decide) (by decide)).2.2.1 (by decide) (by decide)).trans (by rfl)
  · exact (((C6_trash_round_trip ⟨[(["home", "notes", "sub", "a.md"], "new"),
      (["home", "notes", ".trash", "sub", "a.md"], "old")]⟩
      ["home", "notes"] "sub/a.md" "20240101" "new" "old"
      (by decide) (by decide) (by decide)).2.1 (by decide) (by decide)).1).trans (by rfl)
  · exact ((C6_trash_round_trip ⟨[(["home", "notes", ".trash", "sub", "a_20240101.md"], "new"),
      (["home", "notes", ".trash", "sub", "a.md"], "old")]⟩
      ["home", "notes"] "sub/a.md" "20240101" "old" ""
      (by decide) (by decide) (by decide)).2.2.1 (by decide) (by decide)).trans (by rfl)
  · exact ((C6_trash_round_trip ⟨[(["home", "notes", ".trash", "sub", "a_20240101.md"], "new"),
      (["home", "notes", ".trash", "sub", "a.md"], "old")]⟩
      ["home", "notes"] "sub/a_20240101.md" "20240101" "new" ""
      (by decide) (by decide) (by decide)).2.2.1 (by decide) (by decide)).trans (by rfl)
  · exact (C6_trash_round_trip ⟨[(["home", "notes", ".trash", "sub", "a.md"], "x"),
      (["home", "notes", "sub", "a.md"], "y")]⟩
      ["home", "notes"] "sub/a.md" "20240101" "x" "y"
      (by decide) (by decide) (by decide)).2.2.2.2.1 (by decide) (by decide)
  · exact (C6_trash_round_trip ⟨[]⟩ ["home", "notes"] "sub/a.md" "20240101" "" ""
      (by decide) (by decide) (by decide)).2.2.2.2.2 (by decide)

/-! ## The dynamic connection tool (`tools.py`)

`create_connection` is modelled over a store state carrying note titles,
memory contents, upserted generic entities, dynamically defined relation
tables and dynamic edges.  Records are identified by their lookup key, the
granularity at which the existing-edge check operates. -/

/-- ASCII lowercasing, the effect of `str.lower()` on sanitized output. -/
def toLowerAscii (c : Char) : Char :=
  if 'A' ≤ c ∧ c ≤ 'Z' then Char.ofNat (c.toNat + 32) else c

/-- One character of `re.sub(r"[^a-zA-Z0-9_]", "_", name)`. -/
def sanitizeChar (c : Char) : Char :=
  if ('a' ≤ c ∧ c ≤ 'z') ∨ ('A' ≤ c ∧ c ≤ 'Z') ∨ ('0' ≤ c ∧ c ≤ '9') ∨ c = '_' then c
  else '_'

/-- `_sanitize_identifier`: keep alphanumerics and underscore, replace the
rest by underscore, lowercase. -/
def _sanitize_identifier (name : String) : String :=
  String.mk (name.toList.map (fun c => toLowerAscii (sanitizeChar c)))

def _RESERVED_ENTITY_TABLES : List String :=
  ["tag", "chunk", "tagged_with", "links_to", "from_document"]

def _RESERVED_RELATIONSHIP_TABLES : List String :=
  ["note", "tag", "memory", "chunk", "tagged_with", "links_to", "from_document"]

/-- A dynamic edge: relation table, source table, source identifier, target
table, target identifier.  Records are identified by their lookup key
(`title` for notes, `content` for memories, `name` otherwise). -/
abbrev KgEdge := String × String × String × String × String

/-- The store state visible to the dynamic connection tool: note titles,
memory contents, upserted generic entities, dynamically defined relation
tables, and dynamic edges (a list, so a duplicate RELATE would show up). -/
structure KgState where
  notes : List String
  memories : List String
  entities : List (String × String)
  relTables : List String
  edges : List KgEdge
deriving Repr, DecidableEq

/-- `UPSERT {table} SET name = $name WHERE name = $name`: create the entity
unless it already exists. -/
def upsertEntity (s : KgState) (table name : String) : KgState :=
  if s.entities.contains (table, name) then s
  else { s with entities := s.entities ++ [(table, name)] }

/-- `_resolve_entity`: notes and memories are lookup-only (by title resp.
content); any other table is upserted by name and always resolves. -/
def _resolve_entity (s : KgState) (table name : String) : Bool × KgState :=
  if table = "note" then (s.notes.contains name, s)
  else if table = "memory" then (s.memories.contains name, s)
  else (true, upsertEntity s table name)

/-- `DEFINE TABLE OVERWRITE {rel} TYPE RELATION`: record the relation table. -/
def defineRelTable (s : KgState) (rel : String) : KgState :=
  if s.relTables.contains rel then s else { s with relTables := s.relTables ++ [rel] }

/-- The existing-edge check followed by RELATE: add the edge unless the
same (relation, source, target) triple is already present. -/
def addEdge (s : KgState) (e : KgEdge) : KgState :=
  if s.edges.contains e then s else { s with edges := s.edges ++ [e] }

/-- A single-quote character, for reproducing the source error strings. -/
def quoteChar : String := String.mk [Char.ofNat 39]

/-- `create_connection`: sanitize the three identifiers, reject reserved
table names (source, then target, then relationship), resolve source then
target (an upsert performed before a later failure persists, as in the
source), define the relation table, then RELATE unless the exact triple
already exists. -/
def create_connection (s : KgState)
    (source_type source_name relationship target_type target_name : String) :
    String × KgState :=
  let src_table := _sanitize_identifier source_type
  let tgt_table := _sanitize_identifier target_type
  let rel_type := _sanitize_identifier relationship
  if _RESERVED_ENTITY_TABLES.contains src_table then
    ("Cannot use reserved table name " ++ quoteChar ++ src_table ++ quoteChar ++ " as source_type.", s)
  else if _RESERVED_ENTITY_TABLES.contains tgt_table then
    ("Cannot use reserved table name " ++ quoteChar ++ tgt_table ++ quoteChar ++ " as target_type.", s)
  else if _RESERVED_RELATIONSHIP_TABLES.contains rel_type then
    ("Cannot use reserved table name " ++ quoteChar ++ rel_type ++ quoteChar ++ " as relationship.", s)
  else
    let r1 := _resolve_entity s src_table source_name
    if r1.1 then
      let r2 := _resolve_entity r1.2 tgt_table target_name
      if r2.1 then
        let s3 := defineRelTable r2.2 rel_type
        let s4 := addEdge s3 (rel_type, src_table, source_name, tgt_table, target_name)
        ("Connected " ++ src_table ++ ":" ++ source_name ++ " -[" ++ rel_type ++ "]-> "
          ++ tgt_table ++ ":" ++ target_name, s4)
      else ("Target " ++ tgt_table ++ " " ++ quoteChar ++ target_name ++ quoteChar ++ " not found.", r2.2)
    else ("Source " ++ src_table ++ " " ++ quoteChar ++ source_name ++ quoteChar ++ " not found.", r1.2)

/-- Whether `_resolve_entity` succeeds — a function of the lookup-only
tables alone. -/
def resolvesIn (s : KgState) (table name : String) : Bool :=
  if table = "note" then s.notes.contains name
  else if table = "memory" then s.memories.contains name
  else true

theorem contains_append_one {α : Type} [BEq α] [LawfulBEq α] (l : List α) (a b : α)
    (h : l.contains a = true) : (l ++ [b]).contains a = true := by
  rw [List.elem_iff] at h ⊢
  exact List.mem_append_left _ h

theorem contains_last {α : Type} [BEq α] [LawfulBEq α] (l : List α) (a : α) :
    (l ++ [a]).contains a = true := by
  rw [List.elem_iff]
  exact List.mem_append_right _ (List.mem_singleton.mpr rfl)

theorem upsertEntity_notes (s : KgState) (t n : String) :
    (upsertEntity s t n).notes = s.notes := by
  unfold upsertEntity; split_ifs <;> rfl

theorem upsertEntity_memories (s : KgState) (t n : String) :
    (upsertEntity s t n).memories = s.memories := by
  unfold upsertEntity; split_ifs <;> rfl

theorem upsertEntity_relTables (s : KgState) (t n : String) :
    (upsertEntity s t n).relTables = s.relTables := by
  unfold upsertEntity; split_ifs <;> rfl

theorem upsertEntity_edges (s : KgState) (t n : String) :
    (upsertEntity s t n).edges = s.edges := by
  unfold upsertEntity; split_ifs <;> rfl

theorem upsertEntity_contains (s : KgState) (t n : String) :
    (upsertEntity s t n).entities.contains (t, n) = true := by
  unfold upsertEntity
  split_ifs with h
  · exact h
  · exact contains_last _ _

theorem upsertEntity_contains_mono (s : KgState) (t n : String) (e : String × String)
    (h : s.entities.contains e = true) :
    (upsertEntity s t n).entities.contains e = true := by
  unfold upsertEntity
  split_ifs
  · exact h
  · exact contains_append_one _ _ _ h

theorem upsertEntity_of_contains (s : KgState) (t n : String)
    (h : s.entities.contains (t, n) = true) : upsertEntity s t n = s := by
  unfold upsertEntity
  rw [if_pos h]

theorem resolve_fst (s : KgState) (t n : String) :
    (_resolve_entity s t n).1 = resolvesIn s t n := by
  unfold _resolve_entity resolvesIn
  split_ifs <;> rfl

theorem resolve_notes (s : KgState) (t n : String) :
    (_resolve_entity s t n).2.notes = s.notes := by
  unfold _resolve_entity
  split_ifs <;> simp [upsertEntity_notes]

theorem resolve_memories (s : KgState) (t n : String) :
    (_resolve_entity s t n).2.memories = s.memories := by
  unfold _resolve_entity
  split_ifs <;> simp [upsertEntity_memories]

theorem resolve_relTables (s : KgState) (t n : String) :
    (_resolve_entity s t n).2.relTables = s.relTables := by
  unfold _resolve_entity
  split_ifs <;> simp [upsertEntity_relTables]

theorem resolve_edges (s : KgState) (t n : String) :
    (_resolve_entity s t n).2.edges = s.edges := by
  unfold _resolve_entity
  split_ifs <;> simp [upsertEntity_edges]

theorem resolve_contains_mono (s : KgState) (t n : String) (e : String × String)
    (h : s.entities.contains e = true) :
    (_resolve_entity s t n).2.entities.contains e = true := by
  unfold _resolve_entity
  split_ifs
  · exact h
  · exact h
  · exact upsertEntity_contains_mono s t n e h

theorem resolve_self_contains (s : KgState) (t n : String)
    (h1 : t ≠ "note") (h2 : t ≠ "memory") :
    (_resolve_entity s t n).2.entities.contains (t, n) = true := by
  unfold _resolve_entity
  rw [if_neg h1, if_neg h2]
  exact upsertEntity_contains s t n

theorem resolvesIn_congr (s s' : KgState) (t n : String)
    (h1 : s'.notes = s.notes) (h2 : s'.memories = s.memories) :
    resolvesIn s' t n = resolvesIn s t n := by
  unfold resolvesIn
  rw [h1, h2]

theorem resolve_of_ok (s : KgState) (t n : String)
    (h : resolvesIn s t n = true)
    (hmem : t ≠ "note" → t ≠ "memory" → s.entities.contains (t, n) = true) :
    _resolve_entity s t n = (true, s) := by
  unfold _resolve_entity resolvesIn at *
  split_ifs at h ⊢ with ha hb
  · rw [h]
  · rw [h]
  · rw [upsertEntity_of_contains s t n (hmem ha hb)]

theorem resolve_of_fail (s : KgState) (t n : String)
    (h : resolvesIn s t n = false) :
    _resolve_entity s t n = (false, s) := by
  unfold _resolve_entity resolvesIn at *
  split_ifs at h ⊢
  · rw [h]
  · rw [h]

theorem defineRelTable_notes (s : KgState) (r : String) :
    (defineRelTable s r).notes = s.notes := by
  unfold defineRelTable; split_ifs <;> rfl

theorem defineRelTable_memories (s : KgState) (r : String) :
    (defineRelTable s r).memories = s.memories := by
  unfold defineRelTable; split_ifs <;> rfl

theorem defineRelTable_entities (s : KgState) (r : String) :
    (defineRelTable s r).entities = s.entities := by
  unfold defineRelTable; split_ifs <;> rfl

theorem defineRelTable_edges (s : KgState) (r : String) :
    (defineRelTable s r).edges = s.edges := by
  unfold defineRelTable; split_ifs <;> rfl

theorem defineRelTable_contains (s : KgState) (r : String) :
    (defineRelTable s r).relTables.contains r = true := by
  unfold defineRelTable
  split_ifs with h
  · exact h
  · exact contains_last _ _

theorem defineRelTable_of_contains (s : KgState) (r : String)
    (h : s.relTables.contains r = true) : defineRelTable s r = s := by
  unfold defineRelTable
  rw [if_pos h]

theorem addEdge_notes (s : KgState) (e : KgEdge) : (addEdge s e).notes = s.notes := by
  unfold addEdge; split_ifs <;> rfl

theorem addEdge_memories (s : KgState) (e : KgEdge) :
    (addEdge s e).memories = s.memories := by
  unfold addEdge; split_ifs <;> rfl

theorem addEdge_entities (s : KgState) (e : KgEdge) :
    (addEdge s e).entities = s.entities := by
  unfold addEdge; split_ifs <;> rfl

theorem addEdge_relTables (s : KgState) (e : KgEdge) :
    (addEdge s e).relTables = s.relTables := by
  unfold addEdge; split_ifs <;> rfl

theorem addEdge_contains (s : KgState) (e : KgEdge) :
    (addEdge s e).edges.contains e = true := by
  unfold addEdge
  split_ifs with h
  · exact h
  · exact contains_last _ _

theorem addEdge_of_contains (s : KgState) (e : KgEdge)
    (h : s.edges.contains e = true) : addEdge s e = s := by
  unfold addEdge
  rw [if_pos h]

theorem create_connection_success (s : KgState) (st sn rel tt tn : String)
    (hR1 : _RESERVED_ENTITY_TABLES.contains (_sanitize_identifier st) = false)
    (hR2 : _RESERVED_ENTITY_TABLES.contains (_sanitize_identifier tt) = false)
    (hR3 : _RESERVED_RELATIONSHIP_TABLES.contains (_sanitize_identifier rel) = false)
    (hs : resolvesIn s (_sanitize_identifier st) sn = true)
    (ht : resolvesIn s (_sanitize_identifier tt) tn = true) :
    (create_connection s st sn rel tt tn).2 =
      addEdge (defineRelTable
        (_resolve_entity (_resolve_entity s (_sanitize_identifier st) sn).2
          (_sanitize_identifier tt) tn).2
        (_sanitize_identifier rel))
        (_sanitize_identifier rel, _sanitize_identifier st, sn,
          _sanitize_identifier tt, tn) := by
  have hs1 : (_resolve_entity s (_sanitize_identifier st) sn).1 = true := by
    rw [resolve_fst, hs]
  have ht1 : (_resolve_entity (_resolve_entity s (_sanitize_identifier st) sn).2
      (_sanitize_identifier tt) tn).1 = true := by
    rw [resolve_fst,
      resolvesIn_congr s _ _ _ (resolve_notes _ _ _) (resolve_memories _ _ _), ht]
  unfold create_connection
  rw [if_neg (by simpa using hR1), if_neg (by simpa using hR2),
    if_neg (by simpa using hR3)]
  dsimp only
  rw [if_pos hs1, if_pos ht1]

theorem create_connection_success_edges (s : KgState) (st sn rel tt tn : String)
    (hR1 : _RESERVED_ENTITY_TABLES.contains (_sanitize_identifier st) = false)
    (hR2 : _RESERVED_ENTITY_TABLES.contains (_sanitize_identifier tt) = false)
    (hR3 : _RESERVED_RELATIONSHIP_TABLES.contains (_sanitize_identifier rel) = false)
    (hs : resolvesIn s (_sanitize_identifier st) sn = true)
    (ht : resolvesIn s (_sanitize_identifier tt) tn = true)
    (hfresh : s.edges.contains (_sanitize_identifier rel, _sanitize_identifier st, sn,
      _sanitize_identifier tt, tn) = false) :
    ((create_connection s st sn rel tt tn).2).edges =
      s.edges ++ [(_sanitize_identifier rel, _sanitize_identifier st, sn,
        _sanitize_identifier tt, tn)] := by
  rw [create_connection_success s st sn rel tt tn hR1 hR2 hR3 hs ht]
  unfold addEdge
  rw [defineRelTable_edges, resolve_edges, resolve_edges, if_neg (by simpa using hfresh)]

theorem create_connection_success_facts (s : KgState) (st sn rel tt tn : String)
    (hR1 : _RESERVED_ENTITY_TABLES.contains (_sanitize_identifier st) = false)
    (hR2 : _RESERVED_ENTITY_TABLES.contains (_sanitize_identifier tt) = false)
    (hR3 : _RESERVED_RELATIONSHIP_TABLES.contains (_sanitize_identifier rel) = false)
    (hs : resolvesIn s (_sanitize_identifier st) sn = true)
    (ht : resolvesIn s (_sanitize_identifier tt) tn = true) :
    ((create_connection s st sn rel tt tn).2).notes = s.notes ∧
    ((create_connection s st sn rel tt tn).2).memories = s.memories ∧
    (_sanitize_identifier st ≠ "note" → _sanitize_identifier st ≠ "memory" →
      ((create_connection s st sn rel tt tn).2).entities.contains
        (_sanitize_identifier st, sn) = true) ∧
    (_sanitize_identifier tt ≠ "note" → _sanitize_identifier tt ≠ "memory" →
      ((create_connection s st sn rel tt tn).2).entities.contains
        (_sanitize_identifier tt, tn) = true) ∧
    ((create_connection s st sn rel tt tn).2).relTables.contains
      (_sanitize_identifier rel) = true ∧
    ((create_connection s st sn rel tt tn).2).edges.contains
      (_sanitize_identifier rel, _sanitize_identifier st, sn,
        _sanitize_identifier tt, tn) = true := by
  rw [create_connection_success s st sn rel tt tn hR1 hR2 hR3 hs ht]
  refine ⟨?_, ?_, ?_, ?_, ?_, ?_⟩
  · rw [addEdge_notes, defineRelTable_notes, resolve_notes, resolve_notes]
  · rw [addEdge_memories, defineRelTable_memories, resolve_memories, resolve_memories]
  · intro h1 h2
    rw [addEdge_entities, defineRelTable_entities]
    exact resolve_contains_mono _ _ _ _ (resolve_self_contains s _ sn h1 h2)
  · intro h1 h2
    rw [addEdge_entities, defineRelTable_entities]
    exact resolve_self_contains _ _ tn h1 h2
  · rw [addEdge_relTables]
    exact defineRelTable_contains _ _
  · exact addEdge_contains _ _

theorem create_connection_src_fail (s : KgState) (st sn rel tt tn : String)
    (hR1 : _RESERVED_ENTITY_TABLES.contains (_sanitize_identifier st) = false)
    (hR2 : _RESERVED_ENTITY_TABLES.contains (_sanitize_identifier tt) = false)
    (hR3 : _RESERVED_RELATIONSHIP_TABLES.contains (_sanitize_identifier rel) = false)
    (hs : resolvesIn s (_sanitize_identifier st) sn = false) :
    (create_connection s st sn rel tt tn).2 = s := by
  unfold create_connection
  rw [if_neg (by simpa using hR1), if_neg (by simpa using hR2),
    if_neg (by simpa using hR3)]
  dsimp only
  rw [resolve_of_fail s _ sn hs]
  simp

theorem create_connection_tgt_fail (s : KgState) (st sn rel tt tn : String)
    (hR1 : _RESERVED_ENTITY_TABLES.contains (_sanitize_identifier st) = false)
    (hR2 : _RESERVED_ENTITY_TABLES.contains (_sanitize_identifier tt) = false)
    (hR3 : _RESERVED_RELATIONSHIP_TABLES.contains (_sanitize_identifier rel) = false)
    (hs : resolvesIn s (_sanitize_identifier st) sn = true)
    (ht : resolvesIn s (_sanitize_identifier tt) tn = false) :
    (create_connection s st sn rel tt tn).2 =
      (_resolve_entity s (_sanitize_identifier st) sn).2 := by
  have hs1 : (_resolve_entity s (_sanitize_identifier st) sn).1 = true := by
    rw [resolve_fst, hs]
  have ht1 : resolvesIn (_resolve_entity s (_sanitize_identifier st) sn).2
      (_sanitize_identifier tt) tn = false := by
    rw [resolvesIn_congr s _ _ _ (resolve_notes _ _ _) (resolve_memories _ _ _)]
    exact ht
  unfold create_connection
  rw [if_neg (by simpa using hR1), if_neg (by simpa using hR2),
    if_neg (by simpa using hR3)]
  dsimp only
  rw [if_pos hs1, resolve_of_fail _ _ tn ht1]
  simp

theorem create_connection_idem (s : KgState) (st sn rel tt tn : String) :
    (create_connection (create_connection s st sn rel tt tn).2 st sn rel tt tn).2 =
      (create_connection s st sn rel tt tn).2 := by
  by_cases hR1 : _RESERVED_ENTITY_TABLES.contains (_sanitize_identifier st) = true
  · have h1 : ∀ u : KgState, (create_connection u st sn rel tt tn).2 = u := by
      intro u
      unfold create_connection
      rw [if_pos hR1]
    simp only [h1]
  have hR1f : _RESERVED_ENTITY_TABLES.contains (_sanitize_identifier st) = false := by
    simpa using hR1
  by_cases hR2 : _RESERVED_ENTITY_TABLES.contains (_sanitize_identifier tt) = true
  · have h1 : ∀ u : KgState, (create_connection u st sn rel tt tn).2 = u := by
      intro u
      unfold create_connection
      rw [if_neg (by simpa using hR1), if_pos hR2]
    simp only [h1]
  have hR2f : _RESERVED_ENTITY_TABLES.contains (_sanitize_identifier tt) = false := by
    simpa using hR2
  by_cases hR3 : _RESERVED_RELATIONSHIP_TABLES.contains (_sanitize_identifier rel) = true
  · have h1 : ∀ u : KgState, (create_connection u st sn rel tt tn).2 = u := by
      intro u
      unfold create_connection
      rw [if_neg (by simpa using hR1), if_neg (by simpa using hR2), if_pos hR3]
    simp only [h1]
  have hR3f : _RESERVED_RELATIONSHIP_TABLES.contains (_sanitize_identifier rel) = false := by
    simpa using hR3
  by_cases hsv : resolvesIn s (_sanitize_identifier st) sn = true
  · by_cases htv : resolvesIn s (_sanitize_identifier tt) tn = true
    · obtain ⟨f1, f2, f3, f4, f5, f6⟩ :=
        create_connection_success_facts s st sn rel tt tn hR1f hR2f hR3f hsv htv
      rw [create_connection_success ((create_connection s st sn rel tt tn).2)
        st sn rel tt tn hR1f hR2f hR3f
        ((resolvesIn_congr s _ _ _ f1 f2).trans hsv)
        ((resolvesIn_congr s _ _ _ f1 f2).trans htv)]
      rw [resolve_of_ok _ _ sn ((resolvesIn_congr s _ _ _ f1 f2).trans hsv) f3]
      dsimp only
      rw [resolve_of_ok _ _ tn ((resolvesIn_congr s _ _ _ f1 f2).trans htv) f4]
      dsimp only
      rw [defineRelTable_of_contains _ _ f5, addEdge_of_contains _ _ f6]
    · have htf : resolvesIn s (_sanitize_identifier tt) tn = false := by
        simpa using htv
      have h1 := create_connection_tgt_fail s st sn rel tt tn hR1f hR2f hR3f hsv htf
      rw [h1]
      have hS1 : resolvesIn (_resolve_entity s (_sanitize_identifier st) sn).2
          (_sanitize_identifier st) sn = true := by
        rw [resolvesIn_congr s _ _ _ (resolve_notes _ _ _) (resolve_memories _ _ _)]
        exact hsv
      have hT1 : resolvesIn (_resolve_entity s (_sanitize_identifier st) sn).2
          (_sanitize_identifier tt) tn = false := by
        rw [resolvesIn_congr s _ _ _ (resolve_notes _ _ _) (resolve_memories _ _ _)]
        exact htf
      rw [create_connection_tgt_fail _ st sn rel tt tn hR1f hR2f hR3f hS1 hT1]
      rw [resolve_of_ok _ _ sn hS1 (fun h1 h2 => resolve_self_contains s _ sn h1 h2)]
  · have hsf : resolvesIn s (_sanitize_identifier st) sn = false := by
      simpa using hsv
    have h0 : (create_connection s st sn rel tt tn).2 = s :=
      create_connection_src_fail s st sn rel tt tn hR1f hR2f hR3f hsf
    rw [h0]
    exact h0

theorem create_connection_edges_cases (s : KgState) (st sn rel tt tn : String) :
    ((create_connection s st sn rel tt tn).2).edges = s.edges ∨
    (((create_connection s st sn rel tt tn).2).edges =
       s.edges ++ [(_sanitize_identifier rel, _sanitize_identifier st, sn,
         _sanitize_identifier tt, tn)] ∧
     s.edges.contains (_sanitize_identifier rel, _sanitize_identifier st, sn,
       _sanitize_identifier tt, tn) = false) := by
  unfold create_connection addEdge
  dsimp only
  split_ifs with h1 h2 h3 h4 h5 h6
  · exact Or.inl rfl
  · exact Or.inl rfl
  · exact Or.inl rfl
  · left
    dsimp only
    rw [defineRelTable_edges, resolve_edges, resolve_edges]
  · right
    refine ⟨?_, ?_⟩
    · dsimp only
      rw [defineRelTable_edges, resolve_edges, resolve_edges]
    · rw [defineRelTable_edges, resolve_edges, resolve_edges] at h6
      simpa using h6
  · left
    dsimp only
    rw [resolve_edges, resolve_edges]
  · left
    dsimp only
    rw [resolve_edges]

theorem create_connection_countP (s : KgState) (st sn rel tt tn : String) (e : KgEdge) :
    ((create_connection s st sn rel tt tn).2).edges.countP (fun x => x == e) ≤
      max 1 (s.edges.countP (fun x => x == e)) := by
  rcases create_connection_edges_cases s st sn rel tt tn with h | ⟨h, hfr⟩
  · rw [h]
    exact le_max_right 1 _
  · rw [h, List.countP_append]
    by_cases he : (_sanitize_identifier rel, _sanitize_identifier st, sn,
        _sanitize_identifier tt, tn) = e
    · have hz : s.edges.countP (fun x => x == e) = 0 := by
        rw [List.countP_eq_zero]
        intro a ha hbe
        have ha' : a = e := eq_of_beq hbe
        subst ha'
        rw [← he] at ha
        exact absurd ha (by simpa using hfr)
      rw [hz]
      simp [List.countP_cons, he]
    · have h1 : List.countP (fun x => x == e)
          [(_sanitize_identifier rel, _sanitize_identifier st, sn,
            _sanitize_identifier tt, tn)] = 0 := by
        simp [List.countP_cons, he]
      rw [h1, Nat.add_zero]
      exact le_max_right 1 _

/-- Claim C7: dynamic-edge deduplication.  (1) A second call of
`create_connection` with identical arguments leaves the state of the first
call completely unchanged, whichever branch the first call took; (2) no
call ever pushes the multiplicity of any (relation, source, target) triple
in the edge list above one; (3) with non-reserved sanitized names, both
endpoints resolvable and the triple absent, one call appends exactly that
edge; (4) swapping source and target then creates a second, distinct edge,
leaving both. -/
theorem C7_connection_dedup (s : KgState) (st sn rel tt tn : String) :
    ((create_connection (create_connection s st sn rel tt tn).2 st sn rel tt tn).2 =
      (create_connection s st sn rel tt tn).2) ∧
    (∀ e : KgEdge,
      ((create_connection s st sn rel tt tn).2).edges.countP (fun x => x == e) ≤
        max 1 (s.edges.countP (fun x => x == e))) ∧
    (_RESERVED_ENTITY_TABLES.contains (_sanitize_identifier st) = false →
     _RESERVED_ENTITY_TABLES.contains (_sanitize_identifier tt) = false →
     _RESERVED_RELATIONSHIP_TABLES.contains (_sanitize_identifier rel) = false →
     resolvesIn s (_sanitize_identifier st) sn = true →
     resolvesIn s (_sanitize_identifier tt) tn = true →
     s.edges.contains (_sanitize_identifier rel, _sanitize_identifier st, sn,
       _sanitize_identifier tt, tn) = false →
     ((create_connection s st sn rel tt tn).2).edges =
       s.edges ++ [(_sanitize_identifier rel, _sanitize_identifier st, sn,
         _sanitize_identifier tt, tn)]) ∧
    (_RESERVED_ENTITY_TABLES.contains (_sanitize_identifier st) = false →
     _RESERVED_ENTITY_TABLES.contains (_sanitize_identifier tt) = false →
     _RESERVED_RELATIONSHIP_TABLES.contains (_sanitize_identifier rel) = false →
     resolvesIn s (_sanitize_identifier st) sn = true →
     resolvesIn s (_sanitize_identifier tt) tn = true →
     s.edges.contains (_sanitize_identifier rel, _sanitize_identifier st, sn,
       _sanitize_identifier tt, tn) = false →
     s.edges.contains (_sanitize_identifier rel, _sanitize_identifier tt, tn,
       _sanitize_identifier st, sn) = false →
     (_sanitize_identifier st, sn) ≠ (_sanitize_identifier tt, tn) →
     ((create_connection (create_connection s st sn rel tt tn).2 tt tn rel st sn).2).edges =
       s.edges ++ [(_sanitize_identifier rel, _sanitize_identifier st, sn,
         _sanitize_identifier tt, tn),
        (_sanitize_identifier rel, _sanitize_identifier tt, tn,
         _sanitize_identifier st, sn)] ∧
     ((_sanitize_identifier rel, _sanitize_identifier st, sn,
         _sanitize_identifier tt, tn) : KgEdge) ≠
       (_sanitize_identifier rel, _sanitize_identifier tt, tn,
         _sanitize_identifier st, sn)) := by
  refine ⟨create_connection_idem s st sn rel tt tn,
    create_connection_countP s st sn rel tt tn, ?_, ?_⟩
  · intro hR1 hR2 hR3 hs ht hf1
    exact create_connection_success_edges s st sn rel tt tn hR1 hR2 hR3 hs ht hf1
  · intro hR1 hR2 hR3 hs ht hf1 hf2 hne
    have h1 := create_connection_success_edges s st sn rel tt tn hR1 hR2 hR3 hs ht hf1
    obtain ⟨f1, f2, f3, f4, f5, f6⟩ :=
      create_connection_success_facts s st sn rel tt tn hR1 hR2 hR3 hs ht
    have hne' : ((_sanitize_identifier rel, _sanitize_identifier tt, tn,
        _sanitize_identifier st, sn) : KgEdge) ≠
        (_sanitize_identifier rel, _sanitize_identifier st, sn,
          _sanitize_identifier tt, tn) := by
      intro hq
      apply hne
      simp only [Prod.mk.injEq] at hq
      exact Prod.ext hq.2.1.symm hq.2.2.1.symm
    have hfS : ((create_connection s st sn rel tt tn).2).edges.contains
        (_sanitize_identifier rel, _sanitize_identifier tt, tn,
          _sanitize_identifier st, sn) = false := by
      rw [h1]
      have hm : ((_sanitize_identifier rel, _sanitize_identifier tt, tn,
          _sanitize_identifier st, sn) : KgEdge) ∉
          s.edges ++ [(_sanitize_identifier rel, _sanitize_identifier st, sn,
            _sanitize_identifier tt, tn)] := by
        intro hmem
        rcases List.mem_append.mp hmem with hmem | hmem
        · exact absurd hmem (by simpa using hf2)
        · simp at hmem
          exact hne (Prod.ext hmem.2.2.1 hmem.2.2.2)
      simpa using hm
    have h2 := create_connection_success_edges ((create_connection s st sn rel tt tn).2)
      tt tn rel st sn hR2 hR1 hR3
      ((resolvesIn_congr s _ _ _ f1 f2).trans ht)
      ((resolvesIn_congr s _ _ _ f1 f2).trans hs) hfS
    refine ⟨?_, Ne.symm hne'⟩
    rw [h2, h1, List.append_assoc]
    rfl

/-- Claim C8: reserved-name protection.  If the sanitized source or target
type is a reserved core entity table, or the sanitized relationship is a
reserved core table, `create_connection` returns the corresponding error
message and the store state is returned exactly as it was: no entity
upsert, no table definition, no edge.  The checks run in source order
(source, then target, then relationship). -/
theorem C8_reserved_name_protection (s : KgState) (st sn rel tt tn : String) :
    (_RESERVED_ENTITY_TABLES.contains (_sanitize_identifier st) = true →
      create_connection s st sn rel tt tn =
        ("Cannot use reserved table name " ++ quoteChar ++ _sanitize_identifier st ++
          quoteChar ++ " as source_type.", s)) ∧
    (_RESERVED_ENTITY_TABLES.contains (_sanitize_identifier st) = false →
     _RESERVED_ENTITY_TABLES.contains (_sanitize_identifier tt) = true →
      create_connection s st sn rel tt tn =
        ("Cannot use reserved table name " ++ quoteChar ++ _sanitize_identifier tt ++
          quoteChar ++ " as target_type.", s)) ∧
    (_RESERVED_ENTITY_TABLES.contains (_sanitize_identifier st) = false →
     _RESERVED_ENTITY_TABLES.contains (_sanitize_identifier tt) = false →
     _RESERVED_RELATIONSHIP_TABLES.contains (_sanitize_identifier rel) = true →
      create_connection s st sn rel tt tn =
        ("Cannot use reserved table name " ++ quoteChar ++ _sanitize_identifier rel ++
          quoteChar ++ " as relationship.", s)) := by
  refine ⟨?_, ?_, ?_⟩
  · intro h1
    unfold create_connection
    rw [if_pos h1]
  · intro h1 h2
    unfold create_connection
    rw [if_neg (by simpa using h1), if_pos h2]
  · intro h1 h2 h3
    unfold create_connection
    rw [if_neg (by simpa using h1), if_neg (by simpa using h2), if_pos h3]

/-- Witness for C7: from an empty store, connecting person Alice to person
Bob twice leaves one edge and an unchanged state; connecting Bob to Alice
afterwards yields exactly the two distinct directed edges. -/
theorem C7_connection_dedup_witness :
    ((create_connection
        (create_connection ⟨[], [], [], [], []⟩ "person" "Alice" "knows" "person" "Bob").2
        "person" "Alice" "knows" "person" "Bob").2 =
      (create_connection ⟨[], [], [], [], []⟩ "person" "Alice" "knows" "person" "Bob").2) ∧
    ((create_connection ⟨[], [], [], [], []⟩ "person" "Alice" "knows" "person" "Bob").2).edges =
      [("knows", "person", "Alice", "person", "Bob")] ∧
    ((create_connection
        (create_connection ⟨[], [], [], [], []⟩ "person" "Alice" "knows" "person" "Bob").2
        "person" "Bob" "knows" "person" "Alice").2).edges =
      [("knows", "person", "Alice", "person", "Bob"),
       ("knows", "person", "Bob", "person", "Alice")] ∧
    (("knows", "person", "Alice", "person", "Bob") : KgEdge) ≠
      ("knows", "person", "Bob", "person", "Alice") := by
  refine ⟨(C7_connection_dedup ⟨[], [], [], [], []⟩ "person" "Alice" "knows" "person" "Bob").1,
    ?_, ?_, ?_⟩
  · exact ((C7_connection_dedup ⟨[], [], [], [], []⟩ "person" "Alice" "knows" "person"
      "Bob").2.2.1 (by decide) (by decide) (by decide) (by decide) (by decide)
      (by decide)).trans (by decide)
  · exact (((C7_connection_dedup ⟨[], [], [], [], []⟩ "person" "Alice" "knows" "person"
      "Bob").2.2.2 (by decide) (by decide) (by decide) (by decide) (by decide)
      (by decide) (by decide) (by decide)).1).trans (by decide)
  · have hx := ((C7_connection_dedup ⟨[], [], [], [], []⟩ "person" "Alice"
      "knows" "person" "Bob").2.2.2 (by decide) (by decide) (by decide) (by decide)
      (by decide) (by decide) (by decide) (by decide)).2
    exact fun h => hx (((by decide :
      (_sanitize_identifier "knows", _sanitize_identifier "person", "Alice",
        _sanitize_identifier "person", "Bob") =
      (("knows", "person", "Alice", "person", "Bob") : KgEdge)).trans h).trans (by decide))

/-- Witness for C8: on a populated store, source type TAG (sanitized to
the reserved table tag), target type Chunk, and relationship links_to are
each rejected with the source error message and the state untouched. -/
theorem C8_reserved_name_protection_witness :
    (create_connection ⟨["T"], ["m"], [("person", "Alice")], ["knows"],
        [("knows", "person", "Alice", "person", "Bob")]⟩ "TAG" "X" "knows" "person" "Y" =
      ("Cannot use reserved table name " ++ quoteChar ++ "tag" ++ quoteChar ++
        " as source_type.",
       ⟨["T"], ["m"], [("person", "Alice")], ["knows"],
        [("knows", "person", "Alice", "person", "Bob")]⟩)) ∧
    (create_connection ⟨["T"], ["m"], [("person", "Alice")], ["knows"],
        [("knows", "person", "Alice", "person", "Bob")]⟩ "person" "X" "knows" "Chunk" "Y" =
      ("Cannot use reserved table name " ++ quoteChar ++ "chunk" ++ quoteChar ++
        " as target_type.",
       ⟨["T"], ["m"], [("person", "Alice")], ["knows"],
        [("knows", "person", "Alice", "person", "Bob")]⟩)) ∧
    (create_connection ⟨["T"], ["m"], [("person", "Alice")], ["knows"],
        [("knows", "person", "Alice", "person", "Bob")]⟩ "person" "X" "links_to"
        "person" "Y" =
      ("Cannot use reserved table name " ++ quoteChar ++ "links_to" ++ quoteChar ++
        " as relationship.",
       ⟨["T"], ["m"], [("person", "Alice")], ["knows"],
        [("knows", "person", "Alice", "person", "Bob")]⟩)) := by
  refine ⟨?_, ?_, ?_⟩
  · exact ((C8_reserved_name_protection ⟨["T"], ["m"], [("person", "Alice")], ["knows"],
      [("knows", "person", "Alice", "person", "Bob")]⟩ "TAG" "X" "knows" "person"
      "Y").1 (by decide)).trans (by decide)
  · exact ((C8_reserved_name_protection ⟨["T"], ["m"], [("person", "Alice")], ["knows"],
      [("knows", "person", "Alice", "person", "Bob")]⟩ "person" "X" "knows" "Chunk"
      "Y").2.1 (by decide) (by decide)).trans (by decide)
  · exact ((C8_reserved_name_protection ⟨["T"], ["m"], [("person", "Alice")], ["knows"],
      [("knows", "person", "Alice", "person", "Bob")]⟩ "person" "X" "links_to" "person"
      "Y").2.2 (by decide) (by decide) (by decide)).trans (by decide)

/-! ## Chunking (`kg_pipeline.py`) -/

/-- The chunking loop of `_split_text`, phrased on the remaining suffix:
iteration `i` of the source loop reads `text[start : start + chunk_size]`
with `start = i * step`, i.e. `take chunk_size` of `drop start text`, and
the loop continues while the suffix is non-empty.  The `fuel` argument is
the list length, a strict bound on the iteration count for `step ≥ 1`,
making the recursion structural. -/
def splitChunks (chunk_size step : Nat) : Nat → List Char → List (List Char)
  | _, [] => []
  | 0, _ => []
  | Nat.succ fuel, l => l.take chunk_size :: splitChunks chunk_size step fuel (l.drop step)

/-- `_split_text(text, chunk_size, chunk_overlap)`: empty text yields no
chunks; otherwise fixed windows of `chunk_size` at stride
`max 1 (chunk_size - chunk_overlap)`. -/
def _split_text (text : List Char) (chunk_size chunk_overlap : Nat) : List (List Char) :=
  if text = [] then []
  else splitChunks chunk_size (max 1 (chunk_size - chunk_overlap)) text.length text

example : _split_text ('a' :: List.replicate 8 'b') 4 2 =
    [['a', 'b', 'b', 'b'], ['b', 'b', 'b', 'b'], ['b', 'b', 'b', 'b'],
     ['b', 'b', 'b'], ['b']] := by decide

theorem splitChunks_length_iff (cs st : Nat) (hst : 0 < st) :
    ∀ (fuel : Nat) (l : List Char), l.length ≤ fuel →
      ∀ i : Nat, (i < (splitChunks cs st fuel l).length ↔ st * i < l.length) := by
  intro fuel
  induction fuel with
  | zero =>
    intro l hl i
    have : l = [] := List.length_eq_zero.mp (Nat.le_zero.mp hl)
    subst this
    simp [splitChunks]
  | succ fuel ih =>
    intro l hl i
    match l with
    | [] => simp [splitChunks]
    | c :: r =>
      match i with
      | 0 => simp [splitChunks]
      | i + 1 =>
        have hrec := ih ((c :: r).drop st) (by
          rw [List.length_drop]
          simp only [List.length_cons] at hl ⊢
          omega) i
        simp only [splitChunks, List.length_cons]
        constructor
        · intro h
          have h2 := hrec.mp (by omega)
          rw [List.length_drop] at h2
          simp only [List.length_cons] at h2
          rw [Nat.mul_succ]
          omega
        · intro h
          have h2 : st * i < ((c :: r).drop st).length := by
            rw [List.length_drop]
            simp only [List.length_cons]
            rw [Nat.mul_succ] at h
            omega
          have := hrec.mpr h2
          omega

theorem splitChunks_getD (cs st : Nat) (hst : 0 < st) :
    ∀ (fuel : Nat) (l : List Char), l.length ≤ fuel →
      ∀ i : Nat, i < (splitChunks cs st fuel l).length →
        (splitChunks cs st fuel l).getD i [] = (l.drop (st * i)).take cs := by
  intro fuel
  induction fuel with
  | zero =>
    intro l hl i hi
    have : l = [] := List.length_eq_zero.mp (Nat.le_zero.mp hl)
    subst this
    simp [splitChunks] at hi
  | succ fuel ih =>
    intro l hl i hi
    match l with
    | [] => simp [splitChunks] at hi
    | c :: r =>
      match i with
      | 0 => simp [splitChunks]
      | i + 1 =>
        simp only [splitChunks, List.length_cons, List.getD_cons_succ] at hi ⊢
        rw [ih ((c :: r).drop st) (by
            rw [List.length_drop]
            simp only [List.length_cons] at hl ⊢
            omega) i (by omega)]
        rw [List.drop_drop, Nat.mul_succ]
        ring_nf

theorem splitChunks_nil (cs st fuel : Nat) : splitChunks cs st fuel [] = [] := by
  cases fuel <;> rfl

theorem splitChunks_reconstruct :
    ∀ (fuel : Nat) (l : List Char), l.length ≤ fuel → l ≠ [] →
      (splitChunks 4000 3800 fuel l).headD [] ++
        (((splitChunks 4000 3800 fuel l).tail).map (fun w => w.drop 200)).flatten = l := by
  intro fuel
  induction fuel with
  | zero =>
    intro l hl hne
    exact absurd (List.length_eq_zero.mp (Nat.le_zero.mp hl)) hne
  | succ fuel ih =>
    intro l hl hne
    match l, hne with
    | c :: r, _ =>
      show (c :: r).take 4000 ++
        ((splitChunks 4000 3800 fuel ((c :: r).drop 3800)).map (fun w => w.drop 200)).flatten
          = c :: r
      by_cases hd : (c :: r).drop 3800 = []
      · rw [hd, splitChunks_nil]
        simp only [List.map_nil, List.flatten_nil, List.append_nil]
        exact List.take_of_length_le (by
          have := List.drop_eq_nil_iff.mp hd
          omega)
      · have hlen : ((c :: r).drop 3800).length ≤ fuel := by
          rw [List.length_drop]
          simp only [List.length_cons] at hl ⊢
          omega
        have hrec := ih ((c :: r).drop 3800) hlen hd
        cases fuel with
        | zero =>
          exact absurd (List.length_eq_zero.mp (Nat.le_zero.mp hlen)) hd
        | succ g =>
          obtain ⟨d, r', hdr⟩ : ∃ d r', (c :: r).drop 3800 = d :: r' := by
            cases hcases : (c :: r).drop 3800 with
            | nil => exact absurd hcases hd
            | cons d r' => exact ⟨d, r', rfl⟩
          rw [hdr] at hrec ⊢
          have hrec' : (d :: r').take 4000 ++
              ((splitChunks 4000 3800 g ((d :: r').drop 3800)).map
                (fun w => w.drop 200)).flatten = d :: r' := hrec
          show (c :: r).take 4000 ++
            (((d :: r').take 4000).drop 200 ++
              ((splitChunks 4000 3800 g ((d :: r').drop 3800)).map
                (fun w => w.drop 200)).flatten) = c :: r
          have h1 : (c :: r).take 4000 =
              (c :: r).take 3800 ++ ((c :: r).drop 3800).take 200 :=
            List.take_add (c :: r) 3800 200
          rw [hdr] at h1
          have h2 : (d :: r').take 200 = ((d :: r').take 4000).take 200 := by
            rw [List.take_take]
            norm_num
          rw [h1, h2, List.append_assoc, ← List.append_assoc (((d :: r').take 4000).take 200),
            List.take_append_drop, hrec', ← hdr, List.take_append_drop]

theorem _split_text_eq (text : List Char) (h : text ≠ []) :
    _split_text text 4000 200 = splitChunks 4000 3800 text.length text := by
  unfold _split_text
  rw [if_neg h]
  norm_num

/-- Counterexample to claim C9.  The claim says that with the default
parameters only the last window may be shorter than 4000 characters.  The
stride is `max 1 (4000 - 200) = 3800`, so a 3900-character text yields two
windows, of lengths 3900 and 100: the first window is already short while
a second, non-empty window still follows. -/
theorem C9_chunk_window_counterexample :
    List.replicate 3900 'a' ≠ ([] : List Char) ∧
    (_split_text (List.replicate 3900 'a') 4000 200).length = 2 ∧
    ((_split_text (List.replicate 3900 'a') 4000 200).getD 0 []).length = 3900 ∧
    ¬ (∀ i : Nat, i + 1 < (_split_text (List.replicate 3900 'a') 4000 200).length →
        ((_split_text (List.replicate 3900 'a') 4000 200).getD i []).length = 4000) := by
  have hne : List.replicate 3900 'a' ≠ ([] : List Char) := by
    intro hq
    have := congrArg List.length hq
    rw [List.length_replicate] at this
    exact absurd this (by decide)
  have hiff := splitChunks_length_iff 4000 3800 (by norm_num)
    (List.replicate 3900 'a').length (List.replicate 3900 'a') le_rfl
  have hgd := splitChunks_getD 4000 3800 (by norm_num)
    (List.replicate 3900 'a').length (List.replicate 3900 'a') le_rfl
  have heq := _split_text_eq (List.replicate 3900 'a') hne
  have hlen : (_split_text (List.replicate 3900 'a') 4000 200).length = 2 := by
    rw [heq]
    have h1 := (hiff 1).mpr (by rw [List.length_replicate]; norm_num)
    have h2 : ¬ 2 < (splitChunks 4000 3800 (List.replicate 3900 'a').length
        (List.replicate 3900 'a')).length := by
      intro hh
      have := (hiff 2).mp hh
      rw [List.length_replicate] at this
      omega
    omega
  have hg0 : ((_split_text (List.replicate 3900 'a') 4000 200).getD 0 []).length = 3900 := by
    rw [heq, hgd 0 (by rw [heq] at hlen; omega)]
    rw [List.length_take, List.length_drop, List.length_replicate]
    norm_num
  refine ⟨hne, hlen, hg0, ?_⟩
  intro hall
  have := hall 0 (by omega)
  rw [hg0] at this
  omega

/-- Claim C9, amended: with default parameters the text is split into
windows taken at stride 3800 (window `i` is `text[3800*i : 3800*i+4000]`,
so consecutive full windows overlap by 200 characters — the last 3800-drop
of a window equals the 200-take of the next); a window exists exactly when
`3800*i < length`; every window except possibly the last two is exactly
4000 characters (the last two can both be short, as in the
counterexample); and the head window concatenated with every later
window's 200-character overlap removed reconstructs the text. -/
theorem C9_chunk_window_shape (text : List Char) (h : text ≠ []) :
    (∀ i : Nat, i < (_split_text text 4000 200).length ↔ 3800 * i < text.length) ∧
    (∀ i : Nat, i < (_split_text text 4000 200).length →
      (_split_text text 4000 200).getD i [] = (text.drop (3800 * i)).take 4000) ∧
    (∀ i : Nat, i + 2 < (_split_text text 4000 200).length →
      ((_split_text text 4000 200).getD i []).length = 4000) ∧
    (∀ i : Nat, i + 1 < (_split_text text 4000 200).length →
      ((_split_text text 4000 200).getD i []).drop 3800 =
        ((_split_text text 4000 200).getD (i + 1) []).take 200) ∧
    ((_split_text text 4000 200).headD [] ++
      (((_split_text text 4000 200).tail).map (fun w => w.drop 200)).flatten = text) := by
  have hiff := splitChunks_length_iff 4000 3800 (by norm_num) text.length text le_rfl
  have hgd := splitChunks_getD 4000 3800 (by norm_num) text.length text le_rfl
  rw [_split_text_eq text h]
  refine ⟨hiff, hgd, ?_, ?_, splitChunks_reconstruct text.length text le_rfl h⟩
  · intro i hi
    rw [hgd i (by omega), List.length_take, List.length_drop]
    have h2 := (hiff (i + 2)).mp hi
    rw [Nat.mul_add] at h2
    omega
  · intro i hi
    rw [hgd i (by omega), hgd (i + 1) hi]
    rw [List.drop_take, List.take_take, List.drop_drop]
    norm_num
    rw [Nat.mul_succ]

/-- Witness for C9 (amended): an 8000-character text yields three windows
of lengths 4000, 4000, 400, and reconstruction holds. -/
theorem C9_chunk_window_shape_witness :
    (_split_text (List.replicate 8000 'b') 4000 200).length = 3 ∧
    ((_split_text (List.replicate 8000 'b') 4000 200).getD 0 []).length = 4000 ∧
    ((_split_text (List.replicate 8000 'b') 4000 200).getD 2 []).length = 400 ∧
    ((_split_text (List.replicate 8000 'b') 4000 200).headD [] ++
      (((_split_text (List.replicate 8000 'b') 4000 200).tail).map
        (fun w => w.drop 200)).flatten = List.replicate 8000 'b') := by
  have H := C9_chunk_window_shape (List.replicate 8000 'b') (by
    intro hq
    have := congrArg List.length hq
    rw [List.length_replicate] at this
    exact absurd this (by decide))
  have hlen : (_split_text (List.replicate 8000 'b') 4000 200).length = 3 := by
    have h1 := (H.1 2).mpr (by rw [List.length_replicate]; norm_num)
    have h2 : ¬ 3 < (_split_text (List.replicate 8000 'b') 4000 200).length := by
      intro hh
      have := (H.1 3).mp hh
      rw [List.length_replicate] at this
      omega
    omega
  refine ⟨hlen, H.2.2.1 0 (by omega), ?_, H.2.2.2.2⟩
  rw [H.2.1 2 (by omega), List.length_take, List.length_drop, List.length_replicate]
  norm_num

end Brainshape
